import Mathlib

/-!
# Verification of the `mesa` table-driven test harness (a20r/mesa)

This file is a shallow embedding of `mesa.go` into Lean 4, together with
theorems settling the specification claims about it.

## Modelling conventions

* Go's `testing.T` / `testing.B` host runner is modelled by its observable
  effects: each sub-run (one per case) produces an `Outcome`
  (passed / failed / skipped / crashed) and a trace of runner-level events
  (`Ev`): which lifecycle step ran, which hook level (case vs harness) was
  selected, cleanup registration/execution, benchmark timer bracketing and
  metric reporting.
* User-supplied hooks are arbitrary Lean functions over an abstract user
  world `σ` (modelling everything a Go closure can reach).  Hooks that can
  record test failures (`BeforeCall`, `Check`, `Target`, `Init`) return an
  `ARes`: `ok`, `failNonfatal` (an `assert`-style failure: the case is
  marked failed and continues) or `failFatal` (a `require`-style failure:
  `FailNow`/`Goexit`, aborting the rest of the case body; cleanups that
  were registered with `t.Cleanup` still run — `finishCase` below).
* Nilable Go function fields become `Option` fields.  Calling a nil Go
  function value panics; the only place the harness can do that is the
  `InputFn` wrapper synthesised by `FunctionMesa.Run`, so `InputFn` has
  codomain `PRes` with a `panicked` result.  A panic crashes the whole Go
  test binary: the sub-run gets outcome `crashed`, no further cases run and
  the deferred Teardown of the parent goroutine does not run.
* Go's `for _, tt := range m.Cases` iterates over *copies* of the slice
  elements and the runner only assigns to those copies
  (`tt.Fields = tt.FieldsFn(ctx)`), never to the slice slots; `m` itself is
  a value receiver whose fields are never assigned.  The embedding makes
  this explicit: `runCase` updates a local copy (`{ tt with ... }`) and
  `runCases` returns the list of slot values visible to the caller
  afterwards, which the frame theorems compare with the input list.
* `float64` (used only for benchmark metrics) is modelled bit-exactly:
  a finite IEEE-754 binary64 number is its 64-bit pattern (a `Nat`), and
  `fadd64`/`fdiv64` are defined as correct rounding (round to nearest, ties
  to even) of the exact rational result, which is IEEE-754's definition of
  those operations.
-/

namespace Mesa

/-- Result of running a hook that may record assertions against the current
sub-test: `ok` (no failure), `failNonfatal` (assert-style: recorded, case
continues), `failFatal` (require-style: `FailNow`, aborts the case body). -/
inductive ARes : Type
  | ok
  | failNonfatal
  | failFatal
deriving DecidableEq, Repr

/-- Result of invoking a (possibly nil) Go function value: either a value, or
the nil-function-call panic. -/
inductive PRes (α : Type) : Type
  | ok (a : α)
  | panicked
deriving Repr

/-- Which level a resolved hook came from: the case override or the
harness-level default. -/
inductive HookSrc : Type
  | fromCase
  | fromMesa
deriving DecidableEq, Repr

/-- Runner-level events observable in a sub-run's trace. -/
inductive Ev : Type
  | skipped (reason : String)
  | fieldsFn
  | newInstance
  | inputFn
  | registerCleanup (src : Option HookSrc)
  | beforeCall (src : HookSrc)
  | target
  | check (src : HookSrc)
  | cleanupRun (src : Option HookSrc)
  | resetTimer
  | stopTimer
  | reportMetric (name : String) (bits : Nat)
deriving DecidableEq, Repr

/-- Outcome of one sub-run, as reported by the host `testing` runner.
`crashed` models a Go panic (which kills the whole test binary). -/
inductive Outcome : Type
  | passed
  | failed
  | skipped
  | crashed
deriving DecidableEq, Repr

/-- Observable result of one case's sub-run.  `usedFields`/`usedInput` are
ghost observations recording the fields value actually passed to
`NewInstance` and the input actually given to the
target (set once input resolution completed). -/
structure SubRun (F I : Type) where
  name : String
  outcome : Outcome
  trace : List Ev
  usedFields : Option F
  usedInput : Option I
deriving DecidableEq, Repr

/-- `MethodCase` (mesa.go): a test case with its associated properties.
Hook fields are `Option`s mirroring nilable Go function fields. -/
structure MethodCase (σ Inst F I O : Type) where
  Name : String
  Fields : F
  FieldsFn : Option (σ → F × σ)
  Input : I
  InputFn : Option (σ → Inst → PRes (I × σ))
  Skip : String
  BeforeCall : Option (σ → Inst → I → σ × ARes)
  Check : Option (σ → Inst → I → O → σ × ARes)
  Cleanup : Option (σ → Inst → σ)

/-- `MethodMesa` (mesa.go): the harness for a method-shaped target. -/
structure MethodMesa (σ Inst F I O : Type) where
  Init : Option (σ → σ × ARes)
  NewInstance : σ → F → Inst × σ
  Target : σ → Inst → I → O × σ × ARes
  Cases : List (MethodCase σ Inst F I O)
  BeforeCall : Option (σ → Inst → I → σ × ARes)
  Check : Option (σ → Inst → I → O → σ × ARes)
  Cleanup : Option (σ → Inst → σ)
  Teardown : Option (σ → σ)

/-- The Resolver: the `switch { case tt.Hook != nil: ...; case m.Hook != nil: ... }`
pattern used (independently) for each hook kind in `MethodMesa.Run` and
`MethodBenchmarkMesa.Run`: case-level hook wins, else harness default, else
absent. -/
def resolveHook {α : Type} (caseHook mesaHook : Option α) : Option (HookSrc × α) :=
  match caseHook with
  | some f => some (HookSrc.fromCase, f)
  | none =>
    match mesaHook with
    | some f => some (HookSrc.fromMesa, f)
    | none => none

variable {σ Inst F I O : Type}

/-- Run the resolved BeforeCall hook (or nothing), returning the emitted
events, new state and hook result. -/
def runBefore (resolved : Option (HookSrc × (σ → Inst → I → σ × ARes)))
    (s : σ) (inst : Inst) (i : I) : List Ev × σ × ARes :=
  match resolved with
  | none => ([], s, ARes.ok)
  | some (src, f) =>
    let p := f s inst i
    ([Ev.beforeCall src], p.1, p.2)

/-- Run the resolved Check hook (or nothing). -/
def runCheckHook (resolved : Option (HookSrc × (σ → Inst → I → O → σ × ARes)))
    (s : σ) (inst : Inst) (i : I) (o : O) : List Ev × σ × ARes :=
  match resolved with
  | none => ([], s, ARes.ok)
  | some (src, f) =>
    let p := f s inst i o
    ([Ev.check src], p.1, p.2)

/-- Run the cleanup callback registered with `t.Cleanup`: either the no-op
`func() {}` (when neither level supplied a hook) or the resolved hook. The
host guarantees this runs once at sub-run exit on every path. -/
def runCleanupHook (resolved : Option (HookSrc × (σ → Inst → σ)))
    (s : σ) (inst : Inst) : List Ev × σ :=
  match resolved with
  | none => ([Ev.cleanupRun none], s)
  | some (src, f) => ([Ev.cleanupRun (some src)], f s inst)

/-- Finish a case body: the host runs the registered cleanup (on every exit
path, aborts included) and reports the sub-run outcome. -/
def finishCase (name : String) (fields : F) (input : I)
    (cres : Option (HookSrc × (σ → Inst → σ)))
    (tr : List Ev) (s : σ) (inst : Inst) (failedFlag : Bool) : SubRun F I × σ :=
  let q := runCleanupHook cres s inst
  ({ name := name
     outcome := if failedFlag then Outcome.failed else Outcome.passed
     trace := tr ++ q.1
     usedFields := some fields
     usedInput := some input }, q.2)

/-- The case body after fields/input resolution (mesa.go lines 202-227):
resolve and register Cleanup first, then BeforeCall, Target, Check, with
`failFatal` aborting the remaining steps but never the registered cleanup. -/
def runCaseBody (m : MethodMesa σ Inst F I O) (tt : MethodCase σ Inst F I O)
    (inst : Inst) (s : σ) (pre : List Ev) : SubRun F I × σ :=
  let cres := resolveHook tt.Cleanup m.Cleanup
  let tr0 := pre ++ [Ev.registerCleanup (cres.map Prod.fst)]
  let b := runBefore (resolveHook tt.BeforeCall m.BeforeCall) s inst tt.Input
  if b.2.2 = ARes.failFatal then
    finishCase tt.Name tt.Fields tt.Input cres (tr0 ++ b.1) b.2.1 inst true
  else
    let t := m.Target b.2.1 inst tt.Input
    if t.2.2 = ARes.failFatal then
      finishCase tt.Name tt.Fields tt.Input cres (tr0 ++ b.1 ++ [Ev.target]) t.2.1 inst true
    else
      let c := runCheckHook (resolveHook tt.Check m.Check) t.2.1 inst tt.Input t.1
      finishCase tt.Name tt.Fields tt.Input cres (tr0 ++ b.1 ++ [Ev.target] ++ c.1) c.2.1 inst
        (b.2.2 == ARes.failNonfatal || t.2.2 == ARes.failNonfatal || c.2.2 != ARes.ok)

/-- One case of `MethodMesa.Run` (the body of `t.Run(tt.Name, ...)`):
skip check, fields resolution (provider wins, assigned to the local copy of
the case), instance construction, input resolution (provider wins, may
observe the instance, may panic if it is the adapter's wrapper around a nil
function), then the case body. -/
def runCase (m : MethodMesa σ Inst F I O) (tt0 : MethodCase σ Inst F I O)
    (s0 : σ) : SubRun F I × σ :=
  if tt0.Skip ≠ "" then
    ({ name := tt0.Name
       outcome := Outcome.skipped
       trace := [Ev.skipped tt0.Skip]
       usedFields := none
       usedInput := none }, s0)
  else
    let pF : MethodCase σ Inst F I O × σ × List Ev :=
      match tt0.FieldsFn with
      | some f =>
        let q := f s0
        ({ tt0 with Fields := q.1 }, q.2, [Ev.fieldsFn])
      | none => (tt0, s0, [])
    let tt1 := pF.1
    let q := m.NewInstance pF.2.1 tt1.Fields
    let ev1 := pF.2.2 ++ [Ev.newInstance]
    match tt1.InputFn with
    | some f =>
      match f q.2 q.1 with
      | PRes.panicked =>
        ({ name := tt1.Name
           outcome := Outcome.crashed
           trace := ev1 ++ [Ev.inputFn]
           usedFields := some tt1.Fields
           usedInput := none }, q.2)
      | PRes.ok q2 => runCaseBody m { tt1 with Input := q2.1 } q.1 q2.2 (ev1 ++ [Ev.inputFn])
    | none => runCaseBody m tt1 q.1 q.2 ev1

/-- Result of the case loop: the sub-runs, the threaded user state, whether a
panic crashed the run, and the case-slot values as the caller sees them
afterwards (Go's `range` iterates over copies, so every slot is returned
unchanged). -/
structure CasesResult (σ Inst F I O : Type) where
  subruns : List (SubRun F I)
  state : σ
  crashed : Bool
  slots : List (MethodCase σ Inst F I O)

/-- The case loop of `MethodMesa.Run`.  A crash (Go panic) kills the test
binary: no further cases run. -/
def runCases (m : MethodMesa σ Inst F I O) :
    List (MethodCase σ Inst F I O) → σ → CasesResult σ Inst F I O
  | [], s => ⟨[], s, false, []⟩
  | c :: cs, s =>
    let r := runCase m c s
    if r.1.outcome = Outcome.crashed then
      ⟨[r.1], r.2, true, c :: cs⟩
    else
      let rest := runCases m cs r.2
      ⟨r.1 :: rest.subruns, rest.state, rest.crashed, c :: rest.slots⟩

/-- Observable result of one whole `Run` call. -/
structure RunResult (σ F I : Type) where
  subruns : List (SubRun F I)
  finalState : σ
  initFatal : Bool
  teardownRan : Bool
  crashed : Bool

/-- `MethodMesa.Run` after a successful (or absent) `Init`: the case loop,
then the deferred Teardown — which runs whenever the loop finishes without a
panic, regardless of case failures (sub-test failures never escape `t.Run`).
Also returns the caller-visible harness value afterwards. -/
def runMain (m : MethodMesa σ Inst F I O) (s1 : σ) :
    RunResult σ F I × MethodMesa σ Inst F I O :=
  let r := runCases m m.Cases s1
  let mAfter := { m with Cases := r.slots }
  if r.crashed then
    (⟨r.subruns, r.state, false, false, true⟩, mAfter)
  else
    match m.Teardown with
    | some td => (⟨r.subruns, td r.state, false, true, false⟩, mAfter)
    | none => (⟨r.subruns, r.state, false, false, false⟩, mAfter)

/-- `MethodMesa.Run` (mesa.go lines 173-230).  `Init` runs first; a fatal
failure inside it is a `FailNow` in the parent goroutine *before* the
`defer m.Teardown` line executes, so no case runs and Teardown never runs. -/
def MethodMesa.run (m : MethodMesa σ Inst F I O) (s0 : σ) :
    RunResult σ F I × MethodMesa σ Inst F I O :=
  match m.Init with
  | some f =>
    let p := f s0
    if p.2 = ARes.failFatal then (⟨[], p.1, true, false, false⟩, m)
    else runMain m p.1
  | none => runMain m s0

/-! ## IEEE-754 binary64, bit-exact

Benchmark metrics are Go `float64` values.  We model a `float64` as its
64-bit pattern (a `Nat < 2^64`) and define addition and division as IEEE-754
does: the exact rational result, rounded to nearest with ties to even
(Go uses the hardware's default rounding mode). -/

/-- A `float64` as its IEEE-754 bit pattern. -/
abbrev F64 := Nat

/-- Sign bit of a binary64 pattern. -/
def f64Sign (x : F64) : Bool := x / 2 ^ 63 % 2 = 1

/-- Biased exponent field of a binary64 pattern. -/
def f64Exp (x : F64) : Nat := x / 2 ^ 52 % 2 ^ 11

/-- Mantissa field of a binary64 pattern. -/
def f64Mant (x : F64) : Nat := x % 2 ^ 52

/-- NaN: all-ones exponent with nonzero mantissa. -/
def f64IsNaN (x : F64) : Bool := f64Exp x = 2047 && f64Mant x ≠ 0

/-- Infinity: all-ones exponent with zero mantissa. -/
def f64IsInf (x : F64) : Bool := f64Exp x = 2047 && f64Mant x = 0

/-- The canonical quiet NaN pattern. -/
def canonNaN : F64 := 2047 * 2 ^ 52 + 2 ^ 51

/-- Bit pattern of (positive) infinity's magnitude. -/
def infMag : Nat := 2047 * 2 ^ 52

/-- Magnitude of a finite binary64 pattern as an exact fraction
numerator/denominator (the denominator a power of two). -/
def f64MagQ (x : F64) : Nat × Nat :=
  let e := f64Exp x
  let m := f64Mant x
  if e = 0 then (m, 2 ^ 1074)
  else if e ≥ 1075 then ((2 ^ 52 + m) * 2 ^ (e - 1075), 1)
  else (2 ^ 52 + m, 2 ^ (1075 - e))

/-- Round `num/den` to the nearest integer, ties to even. -/
def roundNatDiv (num den : Nat) : Nat :=
  let q := num / den
  let r := num % den
  if 2 * r < den then q
  else if 2 * r > den then q + 1
  else if q % 2 = 0 then q else q + 1

/-- Fueled binary logarithm (structural recursion so that the kernel can
evaluate it; the fuel bound 4500 exceeds every bit length arising from
binary64 operands scaled by `2 ^ 1200`). -/
def log2F : Nat → Nat → Nat
  | 0, _ => 0
  | fuel + 1, n => if 2 ≤ n then log2F fuel (n / 2) + 1 else 0

/-- `⌊log₂ n⌋` for `n ≥ 1` (kernel-computable version of `Nat.log2`). -/
def log2B (n : Nat) : Nat := log2F 4500 n

/-- Round the positive rational `a / b` (with `b ≥ 1`) to the nearest
binary64 magnitude, ties to even: the bit pattern of the nearest
representable (sign bit clear), `infMag` on overflow, `0` when it rounds to
zero.  This is the IEEE-754 `roundTiesToEven` of an exact positive result,
covering normals and subnormals. -/
def roundPosMag (a b : Nat) : Nat :=
  if a = 0 then 0
  else
    let m := a * 2 ^ 1200 / b
    if m = 0 then 0
    else
      let E : Int := (log2B m : Int) - 1200
      if E ≥ -1022 then
        let sh : Int := E - 52
        let q :=
          if 0 ≤ sh then roundNatDiv a (b * 2 ^ sh.toNat)
          else roundNatDiv (a * 2 ^ (-sh).toNat) b
        let q2 := if q = 2 ^ 53 then 2 ^ 52 else q
        let E2 := if q = 2 ^ 53 then E + 1 else E
        if E2 > 1023 then infMag
        else (E2 + 1023).toNat * 2 ^ 52 + (q2 - 2 ^ 52)
      else
        roundNatDiv (a * 2 ^ 1074) b

/-- Attach a sign bit to a magnitude pattern. -/
def mkF64 (neg : Bool) (mag : Nat) : F64 := if neg then 2 ^ 63 + mag else mag

/-- IEEE-754 binary64 addition (Go's `+` on `float64`), round to nearest,
ties to even.  An exact zero sum is `+0` except `(-0) + (-0) = -0`. -/
def fadd64 (x y : F64) : F64 :=
  if f64IsNaN x || f64IsNaN y then canonNaN
  else if f64IsInf x then
    if f64IsInf y && (f64Sign x != f64Sign y) then canonNaN else x
  else if f64IsInf y then y
  else
    let px := f64MagQ x
    let py := f64MagQ y
    let sx : Int := if f64Sign x then -(px.1 : Int) else (px.1 : Int)
    let sy : Int := if f64Sign y then -(py.1 : Int) else (py.1 : Int)
    let num : Int := sx * (py.2 : Int) + sy * (px.2 : Int)
    if num = 0 then
      if f64Sign x && f64Sign y then 2 ^ 63 else 0
    else
      mkF64 (num < 0) (roundPosMag num.natAbs (px.2 * py.2))

/-- IEEE-754 binary64 division (Go's `/` on `float64`), round to nearest,
ties to even. -/
def fdiv64 (x y : F64) : F64 :=
  if f64IsNaN x || f64IsNaN y then canonNaN
  else
    let sgn := f64Sign x != f64Sign y
    if f64IsInf x then
      if f64IsInf y then canonNaN else mkF64 sgn infMag
    else if f64IsInf y then mkF64 sgn 0
    else
      let px := f64MagQ x
      let py := f64MagQ y
      if py.1 = 0 then
        if px.1 = 0 then canonNaN else mkF64 sgn infMag
      else if px.1 = 0 then mkF64 sgn 0
      else mkF64 sgn (roundPosMag (px.1 * py.2) (py.1 * px.2))

/-- Go's `float64(n)` conversion of a non-negative integer (the benchmark's
`float64(b.N)`): round to nearest, ties to even. -/
def natToF64 (n : Nat) : F64 := roundPosMag n 1

/-- `FunctionCase` (mesa.go): a case for a function-shaped harness. -/
structure FunctionCase (σ I O : Type) where
  Name : String
  Input : I
  InputFn : Option (σ → I × σ)
  Skip : String
  BeforeCall : Option (σ → I → σ × ARes)
  Check : Option (σ → I → O → σ × ARes)
  Cleanup : Option (σ → σ)

/-- `FunctionMesa` (mesa.go): the harness for a free-function target. -/
structure FunctionMesa (σ I O : Type) where
  Init : Option (σ → σ × ARes)
  Target : σ → I → O × σ × ARes
  Cases : List (FunctionCase σ I O)
  BeforeCall : Option (σ → I → σ × ARes)
  Check : Option (σ → I → O → σ × ARes)
  Cleanup : Option (σ → σ)
  Teardown : Option (σ → σ)

/-- The per-case part of the adapter in `FunctionMesa.Run` (mesa.go lines
322-344), translated faithfully: `Name`, `Input`, `Skip` are copied, the
hook overrides are wrapped through `checkAndSet` (so an absent hook stays
absent), but `InputFn` is installed *unconditionally* as a wrapper whose
body calls `c.InputFn(ctx)` — a nil-function-call panic whenever the
function case has no `InputFn`. -/
def FunctionCase.toMethod {σ I O : Type} (c : FunctionCase σ I O) :
    MethodCase σ Unit Unit I O :=
  { Name := c.Name
    Fields := ()
    FieldsFn := none
    Input := c.Input
    InputFn := some (fun s _inst =>
      match c.InputFn with
      | some f => PRes.ok (f s)
      | none => PRes.panicked)
    Skip := c.Skip
    BeforeCall := c.BeforeCall.map (fun f => fun s _inst i => f s i)
    Check := c.Check.map (fun f => fun s _inst i o => f s i o)
    Cleanup := c.Cleanup.map (fun f => fun s _inst => f s) }

/-- The adapter built by `FunctionMesa.Run` (mesa.go lines 289-347): a
`MethodMesa` over a null (`Unit`) instance whose constructor ignores fields,
whose hooks are the function mesa's hooks wrapped to drop the instance
parameter (installed via `checkAndSet`, so absent stays absent), and whose
cases come from `FunctionCase.toMethod`. -/
def FunctionMesa.toMethod {σ I O : Type} (m : FunctionMesa σ I O) :
    MethodMesa σ Unit Unit I O :=
  { Init := m.Init.map (fun f => fun s => f s)
    NewInstance := fun s _fields => ((), s)
    Target := fun s _inst i => m.Target s i
    Cases := m.Cases.map FunctionCase.toMethod
    BeforeCall := m.BeforeCall.map (fun f => fun s _inst i => f s i)
    Check := m.Check.map (fun f => fun s _inst i o => f s i o)
    Cleanup := m.Cleanup.map (fun f => fun s _inst => f s)
    Teardown := m.Teardown.map (fun f => fun s => f s) }

/-- `FunctionMesa.Run`: build the adapter and run it through the one method
engine. -/
def FunctionMesa.run {σ I O : Type} (m : FunctionMesa σ I O) (s0 : σ) :
    RunResult σ Unit I × MethodMesa σ Unit Unit I O :=
  m.toMethod.run s0

/-- Modelled from the spec (section 4.4), for the refinement comparison of
claim C1: the "equivalent hand-written method-shaped harness" the adapter is
claimed to coincide with — identical to `FunctionCase.toMethod` except that
the input-provider callback is copied *verbatim*: an absent `InputFn` stays
absent so the literal `Input` is used. -/
def FunctionCase.toMethodSpec {σ I O : Type} (c : FunctionCase σ I O) :
    MethodCase σ Unit Unit I O :=
  { Name := c.Name
    Fields := ()
    FieldsFn := none
    Input := c.Input
    InputFn := c.InputFn.map (fun f => fun s _inst => PRes.ok (f s))
    Skip := c.Skip
    BeforeCall := c.BeforeCall.map (fun f => fun s _inst i => f s i)
    Check := c.Check.map (fun f => fun s _inst i o => f s i o)
    Cleanup := c.Cleanup.map (fun f => fun s _inst => f s) }

/-- Modelled from the spec (section 4.4): the whole hand-written equivalent
method harness for claim C1's comparison, differing from
`FunctionMesa.toMethod` only in using the verbatim case translation. -/
def FunctionMesa.toMethodSpec {σ I O : Type} (m : FunctionMesa σ I O) :
    MethodMesa σ Unit Unit I O :=
  { Init := m.Init.map (fun f => fun s => f s)
    NewInstance := fun s _fields => ((), s)
    Target := fun s _inst i => m.Target s i
    Cases := m.Cases.map FunctionCase.toMethodSpec
    BeforeCall := m.BeforeCall.map (fun f => fun s _inst i => f s i)
    Check := m.Check.map (fun f => fun s _inst i o => f s i o)
    Cleanup := m.Cleanup.map (fun f => fun s _inst => f s)
    Teardown := m.Teardown.map (fun f => fun s => f s) }

/-! ## Benchmark mode -/

/-- The metrics map of a `Ctx` (`map[string]float64`), as an
insertion-ordered association list from name to float64 bit pattern.
(Go map iteration order is unspecified; the association-list order is one
admissible determinisation, and no theorem below depends on it.) -/
abbrev Metrics := List (String × F64)

/-- `c.metrics[name] += value`: a missing key reads as the zero value `+0`. -/
def addMetric : Metrics → String → F64 → Metrics
  | [], name, v => [(name, fadd64 0 v)]
  | (n, x) :: ms, name, v =>
    if n = name then (n, fadd64 x v) :: ms
    else (n, x) :: addMetric ms name v

/-- The per-case benchmark world: the case `Ctx`'s accumulated metrics plus
the abstract user state. -/
structure BWorld (σ : Type) where
  metrics : Metrics
  user : σ

/-- `Ctx.ReportMetric` (mesa.go lines 74-80): accumulate `value` into the
named running total.  (The `StopTimer`/`StartTimer` bracketing inside it
only pauses the wall clock and is not an observable event of the model.) -/
def reportMetric {σ : Type} (value : F64) (name : String) (w : BWorld σ) : BWorld σ :=
  { w with metrics := addMetric w.metrics name value }

/-- `MethodBenchmarkCase` (mesa.go): a benchmark case.  Hooks run over the
benchmark world (they can report metrics through the `Ctx`). -/
structure MethodBenchmarkCase (σ Inst F I O : Type) where
  Name : String
  Fields : F
  FieldsFn : Option (BWorld σ → F × BWorld σ)
  Input : I
  InputFn : Option (BWorld σ → Inst → I × BWorld σ)
  Check : Option (BWorld σ → Inst → I → O → BWorld σ × ARes)
  Skip : String
  BeforeCall : Option (BWorld σ → Inst → I → BWorld σ × ARes)
  Cleanup : Option (BWorld σ → Inst → BWorld σ)

/-- `MethodBenchmarkMesa` (mesa.go): the benchmark harness. -/
structure MethodBenchmarkMesa (σ Inst F I O : Type) where
  Init : Option (σ → σ × ARes)
  NewInstance : BWorld σ → F → Inst × BWorld σ
  Target : BWorld σ → Inst → I → O × BWorld σ × ARes
  Cases : List (MethodBenchmarkCase σ Inst F I O)
  Check : Option (BWorld σ → Inst → I → O → BWorld σ × ARes)
  BeforeCall : Option (BWorld σ → Inst → I → BWorld σ × ARes)
  Cleanup : Option (BWorld σ → Inst → BWorld σ)
  Teardown : Option (σ → σ)

/-- `WithCases` (mesa.go lines 496-502): value receiver, so the result is a
copy of `m` with only `Cases` replaced; the original is untouched. -/
def MethodBenchmarkMesa.WithCases {σ Inst F I O : Type}
    (m : MethodBenchmarkMesa σ Inst F I O)
    (cases : List (MethodBenchmarkCase σ Inst F I O)) :
    MethodBenchmarkMesa σ Inst F I O :=
  { m with Cases := cases }

/-- Observable result of one benchmark case's sub-run.  Besides the trace,
it carries ghost observations of internal values: `usedCheckOut` is the
value of the `out` variable at the Check step (the output retained from the
invocation loop); `loopEntry` is the world/instance/input at the moment the
timer was reset (loop entry); `metricsAtReport` is the case `Ctx`'s metrics
map at the moment the accumulated metrics were surfaced to the host. -/
structure BenchSubRun (σ Inst F I O : Type) where
  name : String
  outcome : Outcome
  trace : List Ev
  usedFields : Option F
  usedInput : Option I
  usedCheckOut : Option O
  loopEntry : Option (BWorld σ × Inst × I)
  metricsAtReport : Option Metrics

/-- The timed loop `for i := 0; i < b.N; i++ { innerOut := m.Target(...);
out = innerOut }`: each iteration re-invokes the target, keeping only the
latest output; a fatal assertion inside the target aborts the loop (and the
rest of the body).  Returns
(events, world, out, nonfatal-failure flag, fatal flag). -/
def benchLoop {σ Inst I O : Type}
    (tgt : BWorld σ → Inst → I → O × BWorld σ × ARes) (inst : Inst) (inp : I) :
    Nat → BWorld σ → O → List Ev × BWorld σ × O × Bool × Bool
  | 0, w, out => ([], w, out, false, false)
  | n + 1, w, out =>
    let t := tgt w inst inp
    if t.2.2 = ARes.failFatal then ([Ev.target], t.2.1, out, false, true)
    else
      let rest := benchLoop tgt inst inp n t.2.1 t.1
      (Ev.target :: rest.1, rest.2.1, rest.2.2.1,
        (t.2.2 == ARes.failNonfatal) || rest.2.2.2.1, rest.2.2.2.2)

/-- Finish a benchmark case: the host runs the registered cleanup on every
exit path and reports the outcome. -/
def finishBenchCase {σ Inst F I O : Type} (name : String) (fields : F) (input : I)
    (checkOut : Option O) (entry : Option (BWorld σ × Inst × I))
    (msRep : Option Metrics)
    (cres : Option (HookSrc × (BWorld σ → Inst → BWorld σ)))
    (tr : List Ev) (w : BWorld σ) (inst : Inst) (failedFlag : Bool) :
    BenchSubRun σ Inst F I O × BWorld σ :=
  let q := runCleanupHook cres w inst
  ({ name := name
     outcome := if failedFlag then Outcome.failed else Outcome.passed
     trace := tr ++ q.1
     usedFields := some fields
     usedInput := some input
     usedCheckOut := checkOut
     loopEntry := entry
     metricsAtReport := msRep }, q.2)

/-- The benchmark case body after fields/input resolution (mesa.go lines
449-489): register the resolved Cleanup, run the resolved BeforeCall, reset
the timer, run the timed loop `N` times, stop the timer, surface each
accumulated metric divided by `float64(N)`, then run the resolved Check on
the final output. -/
def runBenchBody {σ Inst F I O : Type} (m : MethodBenchmarkMesa σ Inst F I O)
    (bb : MethodBenchmarkCase σ Inst F I O) (inst : Inst) (N : Nat) (o0 : O)
    (w : BWorld σ) (pre : List Ev) : BenchSubRun σ Inst F I O × BWorld σ :=
  let cres := resolveHook bb.Cleanup m.Cleanup
  let tr0 := pre ++ [Ev.registerCleanup (cres.map Prod.fst)]
  let b := runBefore (resolveHook bb.BeforeCall m.BeforeCall) w inst bb.Input
  if b.2.2 = ARes.failFatal then
    finishBenchCase bb.Name bb.Fields bb.Input none none none cres (tr0 ++ b.1) b.2.1 inst true
  else
    let entry := some (b.2.1, inst, bb.Input)
    let tr1 := tr0 ++ b.1 ++ [Ev.resetTimer]
    let lp := benchLoop m.Target inst bb.Input N b.2.1 o0
    if lp.2.2.2.2 then
      finishBenchCase bb.Name bb.Fields bb.Input none entry none cres (tr1 ++ lp.1) lp.2.1 inst true
    else
      let w2 := lp.2.1
      let out := lp.2.2.1
      let reports := w2.metrics.map (fun p => Ev.reportMetric p.1 (fdiv64 p.2 (natToF64 N)))
      let tr2 := tr1 ++ lp.1 ++ [Ev.stopTimer] ++ reports
      let c := runCheckHook (resolveHook bb.Check m.Check) w2 inst bb.Input out
      finishBenchCase bb.Name bb.Fields bb.Input (some out) entry (some w2.metrics) cres
        (tr2 ++ c.1) c.2.1 inst
        ((b.2.2 == ARes.failNonfatal) || lp.2.2.2.1 || (c.2.2 != ARes.ok))

/-- One case of `MethodBenchmarkMesa.Run` (the body of `b.Run(bb.Name, ...)`):
skip check, a fresh `Ctx` (empty metrics), fields resolution, instance
construction, input resolution, then the benchmark body.  `N` is the host's
calibrated `b.N` and `o0` the zero value of `O` (`var out O`).  Returns the
sub-run and the final user state (the case `Ctx` and its metrics are
discarded at case end). -/
def runBenchCase {σ Inst F I O : Type} (m : MethodBenchmarkMesa σ Inst F I O)
    (N : Nat) (o0 : O) (bb0 : MethodBenchmarkCase σ Inst F I O) (s0 : σ) :
    BenchSubRun σ Inst F I O × σ :=
  if bb0.Skip ≠ "" then
    ({ name := bb0.Name
       outcome := Outcome.skipped
       trace := [Ev.skipped bb0.Skip]
       usedFields := none
       usedInput := none
       usedCheckOut := none
       loopEntry := none
       metricsAtReport := none }, s0)
  else
    let w0 : BWorld σ := ⟨[], s0⟩
    let pF : MethodBenchmarkCase σ Inst F I O × BWorld σ × List Ev :=
      match bb0.FieldsFn with
      | some f =>
        let q := f w0
        ({ bb0 with Fields := q.1 }, q.2, [Ev.fieldsFn])
      | none => (bb0, w0, [])
    let bb1 := pF.1
    let q := m.NewInstance pF.2.1 bb1.Fields
    let ev1 := pF.2.2 ++ [Ev.newInstance]
    let step2 : MethodBenchmarkCase σ Inst F I O × BWorld σ × List Ev :=
      match bb1.InputFn with
      | some f =>
        let q2 := f q.2 q.1
        ({ bb1 with Input := q2.1 }, q2.2, ev1 ++ [Ev.inputFn])
      | none => (bb1, q.2, ev1)
    let r := runBenchBody m step2.1 q.1 N o0 step2.2.1 step2.2.2
    (r.1, r.2.user)

/-- Result of the benchmark case loop (no panic source exists in this
runner, so there is no crash flag). -/
structure BenchCasesResult (σ Inst F I O : Type) where
  subruns : List (BenchSubRun σ Inst F I O)
  state : σ
  slots : List (MethodBenchmarkCase σ Inst F I O)

/-- The case loop of `MethodBenchmarkMesa.Run`: every case spawns a sub-run
regardless of how earlier cases ended (sub-benchmark failures never escape
`b.Run`), and the slice slots are returned unchanged (`range` copies). -/
def runBenchCases {σ Inst F I O : Type} (m : MethodBenchmarkMesa σ Inst F I O)
    (N : Nat) (o0 : O) :
    List (MethodBenchmarkCase σ Inst F I O) → σ → BenchCasesResult σ Inst F I O
  | [], s => ⟨[], s, []⟩
  | c :: cs, s =>
    let r := runBenchCase m N o0 c s
    let rest := runBenchCases m N o0 cs r.2
    ⟨r.1 :: rest.subruns, rest.state, c :: rest.slots⟩

/-- Observable result of one whole benchmark `Run` call. -/
structure BenchRunResult (σ Inst F I O : Type) where
  subruns : List (BenchSubRun σ Inst F I O)
  finalState : σ
  initFatal : Bool
  teardownRan : Bool

/-- `MethodBenchmarkMesa.Run` after a successful (or absent) `Init`: the
case loop, then the deferred Teardown (which runs regardless of case
failures — sub-benchmark failures never escape `b.Run`). -/
def runBenchMain {σ Inst F I O : Type} (m : MethodBenchmarkMesa σ Inst F I O)
    (N : Nat) (o0 : O) (s1 : σ) :
    BenchRunResult σ Inst F I O × MethodBenchmarkMesa σ Inst F I O :=
  let r := runBenchCases m N o0 m.Cases s1
  let mAfter := { m with Cases := r.slots }
  match m.Teardown with
  | some td => (⟨r.subruns, td r.state, false, true⟩, mAfter)
  | none => (⟨r.subruns, r.state, false, false⟩, mAfter)

/-- `MethodBenchmarkMesa.Run` (mesa.go lines 418-494): `Init` first (a fatal
failure there aborts before `defer m.Teardown` registers, so neither the
cases nor Teardown run), then the case loop, then the deferred Teardown.
Also returns the caller-visible harness value afterwards. -/
def MethodBenchmarkMesa.run {σ Inst F I O : Type}
    (m : MethodBenchmarkMesa σ Inst F I O) (N : Nat) (o0 : O) (s0 : σ) :
    BenchRunResult σ Inst F I O × MethodBenchmarkMesa σ Inst F I O :=
  match m.Init with
  | some f =>
    let p := f s0
    if p.2 = ARes.failFatal then (⟨[], p.1, true, false⟩, m)
    else runBenchMain m N o0 p.1
  | none => runBenchMain m N o0 s0

/-! ## Trace observations -/

/-- Sources of the pre-call hook invocations recorded in a trace. -/
def beforeSrcs (tr : List Ev) : List HookSrc :=
  tr.filterMap fun e => match e with | Ev.beforeCall s => some s | _ => none

/-- Sources of the check hook invocations recorded in a trace. -/
def checkSrcs (tr : List Ev) : List HookSrc :=
  tr.filterMap fun e => match e with | Ev.check s => some s | _ => none

/-- Sources of the executed registered-cleanup callbacks in a trace
(`none` = the no-op callback). -/
def cleanupRunSrcs (tr : List Ev) : List (Option HookSrc) :=
  tr.filterMap fun e => match e with | Ev.cleanupRun s => some s | _ => none

/-- Sources of the cleanup registrations in a trace. -/
def registerSrcs (tr : List Ev) : List (Option HookSrc) :=
  tr.filterMap fun e => match e with | Ev.registerCleanup s => some s | _ => none

/-- The singleton (or empty) list of the resolved hook's source. -/
def srcListOf {α : Type} : Option (HookSrc × α) → List HookSrc
  | none => []
  | some p => [p.1]

/-- Number of target invocations recorded in a trace. -/
def targetCount (tr : List Ev) : Nat := tr.count Ev.target

/-- Events that can precede cleanup registration (setup steps). -/
def isSetupEv : Ev → Bool
  | Ev.fieldsFn => true
  | Ev.newInstance => true
  | Ev.inputFn => true
  | _ => false

/-- Events that can occur between cleanup registration and the registered
cleanup's execution (the case body). -/
def isBodyEv : Ev → Bool
  | Ev.beforeCall _ => true
  | Ev.target => true
  | Ev.check _ => true
  | Ev.resetTimer => true
  | Ev.stopTimer => true
  | Ev.reportMetric _ _ => true
  | _ => false

/-! ## Concrete fixtures used by witnesses and counterexamples -/

/-- A trivial method harness over `Unit`. -/
def unitMesa : MethodMesa Unit Unit Unit Unit Unit :=
  { Init := none
    NewInstance := fun s _ => ((), s)
    Target := fun s _ _ => ((), s, ARes.ok)
    Cases := []
    BeforeCall := none
    Check := none
    Cleanup := none
    Teardown := none }

/-- A trivial benchmark harness over `Unit`. -/
def unitBenchMesa : MethodBenchmarkMesa Unit Unit Unit Unit Unit :=
  { Init := none
    NewInstance := fun w _ => ((), w)
    Target := fun w _ _ => ((), w, ARes.ok)
    Cases := []
    Check := none
    BeforeCall := none
    Cleanup := none
    Teardown := none }

/-- A trivial method case over `Unit` with the given skip reason. -/
def unitCase (sk : String) : MethodCase Unit Unit Unit Unit Unit :=
  { Name := "c"
    Fields := ()
    FieldsFn := none
    Input := ()
    InputFn := none
    Skip := sk
    BeforeCall := none
    Check := none
    Cleanup := none }

/-- A trivial benchmark case over `Unit` with the given skip reason. -/
def unitBenchCase (sk : String) : MethodBenchmarkCase Unit Unit Unit Unit Unit :=
  { Name := "c"
    Fields := ()
    FieldsFn := none
    Input := ()
    InputFn := none
    Check := none
    Skip := sk
    BeforeCall := none
    Cleanup := none }

/-! ## Claim theorems -/

/-- **C10**: `WithCases` returns a new benchmark mesa whose `Cases` field
equals the provided list while every other field is that of `m`; `m` is a
value receiver in the source, so the caller's `m` is untouched (the model's
`WithCases` is a pure function of `m`). -/
theorem withCases_replaces_only_cases {σ Inst F I O : Type}
    (m : MethodBenchmarkMesa σ Inst F I O)
    (cs : List (MethodBenchmarkCase σ Inst F I O)) :
    (m.WithCases cs).Cases = cs ∧
    (m.WithCases cs).Init = m.Init ∧
    (m.WithCases cs).NewInstance = m.NewInstance ∧
    (m.WithCases cs).Target = m.Target ∧
    (m.WithCases cs).Check = m.Check ∧
    (m.WithCases cs).BeforeCall = m.BeforeCall ∧
    (m.WithCases cs).Cleanup = m.Cleanup ∧
    (m.WithCases cs).Teardown = m.Teardown :=
  ⟨rfl, rfl, rfl, rfl, rfl, rfl, rfl, rfl⟩

/-- **C4**: a case with non-empty `Skip` is reported as skipped (an outcome
distinct from passed and failed), its trace holds nothing but the skip
event (no provider callback, constructor, hook or target event), and the
user state is returned untouched — in both the correctness and the
benchmark runner. -/
theorem skip_short_circuits {σ Inst F I O σ2 Inst2 F2 I2 O2 : Type}
    (m : MethodMesa σ Inst F I O) (tt : MethodCase σ Inst F I O) (s : σ)
    (bm : MethodBenchmarkMesa σ2 Inst2 F2 I2 O2) (N : Nat) (o0 : O2)
    (bb : MethodBenchmarkCase σ2 Inst2 F2 I2 O2) (s2 : σ2)
    (ht : tt.Skip ≠ "") (hb : bb.Skip ≠ "") :
    runCase m tt s =
      ({ name := tt.Name
         outcome := Outcome.skipped
         trace := [Ev.skipped tt.Skip]
         usedFields := none
         usedInput := none }, s) ∧
    runBenchCase bm N o0 bb s2 =
      ({ name := bb.Name
         outcome := Outcome.skipped
         trace := [Ev.skipped bb.Skip]
         usedFields := none
         usedInput := none
         usedCheckOut := none
         loopEntry := none
         metricsAtReport := none }, s2) ∧
    Outcome.skipped ≠ Outcome.passed ∧ Outcome.skipped ≠ Outcome.failed := by
  refine ⟨?_, ?_, by decide, by decide⟩
  · simp [runCase, ht]
  · simp [runBenchCase, hb]

/-- Witness for `skip_short_circuits` at a concrete skipped case. -/
theorem skip_short_circuits_witness :
    runCase unitMesa (unitCase "slow") () =
      ({ name := (unitCase "slow").Name
         outcome := Outcome.skipped
         trace := [Ev.skipped (unitCase "slow").Skip]
         usedFields := none
         usedInput := none }, ()) ∧
    runBenchCase unitBenchMesa 2 () (unitBenchCase "slow") () =
      ({ name := (unitBenchCase "slow").Name
         outcome := Outcome.skipped
         trace := [Ev.skipped (unitBenchCase "slow").Skip]
         usedFields := none
         usedInput := none
         usedCheckOut := none
         loopEntry := none
         metricsAtReport := none }, ()) ∧
    Outcome.skipped ≠ Outcome.passed ∧ Outcome.skipped ≠ Outcome.failed :=
  skip_short_circuits unitMesa (unitCase "slow") () unitBenchMesa 2 ()
    (unitBenchCase "slow") () (by decide) (by decide)

/-- The case loop hands every slice slot back unchanged: the Go runner
iterates over copies and never stores into the caller's slice. -/
theorem runCases_slots {σ Inst F I O : Type} (m : MethodMesa σ Inst F I O) :
    ∀ (cs : List (MethodCase σ Inst F I O)) (s : σ), (runCases m cs s).slots = cs
  | [], _ => rfl
  | c :: cs, s => by
    unfold runCases
    by_cases h : (runCase m c s).1.outcome = Outcome.crashed
    · simp [h]
    · simp [h, runCases_slots m cs]

/-- Benchmark analogue of `runCases_slots`. -/
theorem runBenchCases_slots {σ Inst F I O : Type}
    (m : MethodBenchmarkMesa σ Inst F I O) (N : Nat) (o0 : O) :
    ∀ (cs : List (MethodBenchmarkCase σ Inst F I O)) (s : σ),
      (runBenchCases m N o0 cs s).slots = cs
  | [], _ => rfl
  | c :: cs, s => by
    unfold runBenchCases
    simpa using runBenchCases_slots m N o0 cs (runBenchCase m N o0 c s).2

/-- **C9**: `Run` never mutates the caller's configuration.  The model's
`run` returns, besides the observable results, the harness value as the
caller sees it afterwards — Go's `range` iterates over copies of the case
slots (provider results are assigned only to those copies) and the value
receiver's own fields are never assigned, so the slots handed back by
`runCases`/`runBenchCases` reassemble to exactly the original harness. -/
theorem run_preserves_caller_config {σ Inst F I O σ2 Inst2 F2 I2 O2 : Type}
    (m : MethodMesa σ Inst F I O) (s : σ)
    (bm : MethodBenchmarkMesa σ2 Inst2 F2 I2 O2) (N : Nat) (o0 : O2) (s2 : σ2) :
    (m.run s).2 = m ∧ (bm.run N o0 s2).2 = bm := by
  constructor
  · have hmain : ∀ s1, (runMain m s1).2 = m := by
      intro s1
      unfold runMain
      simp only [runCases_slots]
      split
      · rfl
      · split
        · rfl
        · rfl
    unfold MethodMesa.run
    match hI : m.Init with
    | none => exact hmain s
    | some f =>
      by_cases hr : (f s).2 = ARes.failFatal
      · simp [hr]
      · simp [hr, hmain]
  · have hmain : ∀ s1, (runBenchMain bm N o0 s1).2 = bm := by
      intro s1
      unfold runBenchMain
      simp only [runBenchCases_slots]
      split
      · rfl
      · rfl
    unfold MethodBenchmarkMesa.run
    match hI : bm.Init with
    | none => exact hmain s2
    | some f =>
      by_cases hr : (f s2).2 = ARes.failFatal
      · simp [hr]
      · simp [hr, hmain]

/-- The function-shaped harness of the repository's own `TestAdd`
(example_test.go): a pure adder target and cases that set a literal `Input`
and no `InputFn`. -/
def addMesa : FunctionMesa Unit (Nat × Nat) Nat :=
  { Init := none
    Target := fun s i => (i.1 + i.2, s, ARes.ok)
    Cases :=
      [{ Name := "Add 1 and 2"
         Input := (1, 2)
         InputFn := none
         Skip := ""
         BeforeCall := none
         Check := some (fun s _i o => (s, if o = 3 then ARes.ok else ARes.failNonfatal))
         Cleanup := none },
       { Name := "Add 0 and 0"
         Input := (0, 0)
         InputFn := none
         Skip := ""
         BeforeCall := none
         Check := some (fun s _i o => (s, if o = 0 then ARes.ok else ARes.failNonfatal))
         Cleanup := none }]
    BeforeCall := none
    Check := none
    Cleanup := none
    Teardown := none }

/-- **C1** (code bug): the adapter does *not* reproduce the hand-written
method-shaped harness.  `FunctionMesa.Run` installs the `InputFn` wrapper
unconditionally, so for a case that supplies a literal `Input` and no
`InputFn` — such as the repository's own `TestAdd` — the wrapper calls a nil
function: the first case panics (crashes) instead of passing, and the
remaining case and the outcome reported by the equivalent hand-written
harness (`toMethodSpec`, which copies the input provider verbatim) are never
matched. -/
theorem functionAdapter_vs_handwritten :
    ((addMesa.toMethod).run ()).1.subruns.map (fun r => r.outcome) = [Outcome.crashed] ∧
    ((addMesa.toMethodSpec).run ()).1.subruns.map (fun r => r.outcome) =
      [Outcome.passed, Outcome.passed] ∧
    ((addMesa.toMethodSpec).run ()).1.subruns.map (fun r => r.usedInput) =
      [some (1, 2), some (0, 0)] ∧
    ((addMesa.toMethod).run ()).1.crashed = true := by
  refine ⟨rfl, rfl, rfl, rfl⟩

/-- The events emitted by the BeforeCall step are exactly the resolved
hook's invocation (regardless of the hook's result). -/
theorem runBefore_events {σ Inst I : Type}
    (r : Option (HookSrc × (σ → Inst → I → σ × ARes))) (s : σ) (inst : Inst) (i : I) :
    (runBefore r s inst i).1 = (srcListOf r).map Ev.beforeCall := by
  rcases r with _ | ⟨src, f⟩ <;> rfl

/-- The events emitted by the Check step are exactly the resolved hook's
invocation (regardless of the hook's result). -/
theorem runCheckHook_events {σ Inst I O : Type}
    (r : Option (HookSrc × (σ → Inst → I → O → σ × ARes)))
    (s : σ) (inst : Inst) (i : I) (o : O) :
    (runCheckHook r s inst i o).1 = (srcListOf r).map Ev.check := by
  rcases r with _ | ⟨src, f⟩ <;> rfl

/-- The registered cleanup executes exactly once, with the resolved source. -/
theorem runCleanupHook_events {σ Inst : Type}
    (r : Option (HookSrc × (σ → Inst → σ))) (s : σ) (inst : Inst) :
    (runCleanupHook r s inst).1 = [Ev.cleanupRun (r.map Prod.fst)] := by
  rcases r with _ | ⟨src, f⟩ <;> rfl

/-- Exact shape of a method case body's trace: the cleanup registration
comes first, then the resolved BeforeCall invocation (always, whatever its
result), then a tail that is — depending on where a fatal failure aborted
the body — empty, just the target invocation, or the target invocation
followed by the resolved Check invocation; the registered cleanup's
execution is the final event.  A passed outcome implies the full tail. -/
theorem runCaseBody_trace (m : MethodMesa σ Inst F I O) (tt : MethodCase σ Inst F I O)
    (inst : Inst) (s : σ) (pre : List Ev) :
    ∃ tl : List Ev,
      (runCaseBody m tt inst s pre).1.trace =
        pre ++ [Ev.registerCleanup ((resolveHook tt.Cleanup m.Cleanup).map Prod.fst)] ++
          ((srcListOf (resolveHook tt.BeforeCall m.BeforeCall)).map Ev.beforeCall) ++ tl ++
          [Ev.cleanupRun ((resolveHook tt.Cleanup m.Cleanup).map Prod.fst)] ∧
      (tl = [] ∨ tl = [Ev.target] ∨
        tl = Ev.target :: (srcListOf (resolveHook tt.Check m.Check)).map Ev.check) ∧
      ((runCaseBody m tt inst s pre).1.outcome = Outcome.passed →
        tl = Ev.target :: (srcListOf (resolveHook tt.Check m.Check)).map Ev.check) := by
  unfold runCaseBody
  by_cases hb : (runBefore (resolveHook tt.BeforeCall m.BeforeCall) s inst tt.Input).2.2 =
      ARes.failFatal
  · refine ⟨[], ?_⟩
    simp [hb, finishCase, runCleanupHook_events, runBefore_events]
  · by_cases ht : (m.Target
        (runBefore (resolveHook tt.BeforeCall m.BeforeCall) s inst tt.Input).2.1 inst
          tt.Input).2.2 = ARes.failFatal
    · refine ⟨[Ev.target], ?_⟩
      simp [hb, ht, finishCase, runCleanupHook_events, runBefore_events]
    · refine ⟨Ev.target :: (srcListOf (resolveHook tt.Check m.Check)).map Ev.check, ?_⟩
      simp [hb, ht, finishCase, runCleanupHook_events, runBefore_events, runCheckHook_events]

/-- `usedFields`/`usedInput` observations of a completed case body: the
fields and input carried by the (locally updated) case copy, on every exit
path. -/
theorem runCaseBody_used (m : MethodMesa σ Inst F I O) (tt : MethodCase σ Inst F I O)
    (inst : Inst) (s : σ) (pre : List Ev) :
    (runCaseBody m tt inst s pre).1.usedFields = some tt.Fields ∧
    (runCaseBody m tt inst s pre).1.usedInput = some tt.Input ∧
    (runCaseBody m tt inst s pre).1.name = tt.Name ∧
    (runCaseBody m tt inst s pre).1.outcome ≠ Outcome.crashed ∧
    (runCaseBody m tt inst s pre).1.outcome ≠ Outcome.skipped := by
  unfold runCaseBody
  by_cases hb : (runBefore (resolveHook tt.BeforeCall m.BeforeCall) s inst tt.Input).2.2 =
      ARes.failFatal
  · simp [hb, finishCase]
  · by_cases ht : (m.Target
        (runBefore (resolveHook tt.BeforeCall m.BeforeCall) s inst tt.Input).2.1 inst
          tt.Input).2.2 = ARes.failFatal
    · simp [hb, ht, finishCase]
    · simp only [hb, ht, if_false, finishCase]
      refine ⟨trivial, trivial, trivial, ?_, ?_⟩ <;> split <;> simp

/-- `usedFields`/`usedInput` observations of a benchmark case body, on
every exit path. -/
theorem runBenchBody_used {σ Inst F I O : Type} (m : MethodBenchmarkMesa σ Inst F I O)
    (bb : MethodBenchmarkCase σ Inst F I O) (inst : Inst) (N : Nat) (o0 : O)
    (w : BWorld σ) (pre : List Ev) :
    (runBenchBody m bb inst N o0 w pre).1.usedFields = some bb.Fields ∧
    (runBenchBody m bb inst N o0 w pre).1.usedInput = some bb.Input ∧
    (runBenchBody m bb inst N o0 w pre).1.name = bb.Name ∧
    (runBenchBody m bb inst N o0 w pre).1.outcome ≠ Outcome.crashed ∧
    (runBenchBody m bb inst N o0 w pre).1.outcome ≠ Outcome.skipped := by
  unfold runBenchBody
  by_cases hb : (runBefore (resolveHook bb.BeforeCall m.BeforeCall) w inst bb.Input).2.2 =
      ARes.failFatal
  · simp [hb, finishBenchCase]
  · by_cases hl : (benchLoop m.Target inst bb.Input N
        (runBefore (resolveHook bb.BeforeCall m.BeforeCall) w inst bb.Input).2.1
        o0).2.2.2.2 = true
    · simp [hb, hl, finishBenchCase]
    · simp only [hb, if_false, hl, finishBenchCase, Bool.false_eq_true]
      refine ⟨trivial, trivial, trivial, ?_, ?_⟩ <;> split <;> simp

/-- The timed loop emits one target-invocation event per completed
iteration: `k` events with `k ≤ N`, and `k = N` unless a fatal assertion
aborted the loop. -/
theorem benchLoop_events {σ Inst I O : Type}
    (tgt : BWorld σ → Inst → I → O × BWorld σ × ARes) (inst : Inst) (inp : I) :
    ∀ (N : Nat) (w : BWorld σ) (o : O), ∃ k, k ≤ N ∧
      (benchLoop tgt inst inp N w o).1 = List.replicate k Ev.target ∧
      ((benchLoop tgt inst inp N w o).2.2.2.2 = false → k = N)
  | 0, _, _ => ⟨0, by simp [benchLoop]⟩
  | N + 1, w, o => by
    unfold benchLoop
    by_cases h : (tgt w inst inp).2.2 = ARes.failFatal
    · exact ⟨1, by omega, by simp [h], by simp [h]⟩
    · obtain ⟨k, hk, hev, himp⟩ :=
        benchLoop_events tgt inst inp N (tgt w inst inp).2.1 (tgt w inst inp).1
      refine ⟨k + 1, by omega, ?_, ?_⟩
      · simp [h, hev, List.replicate_succ]
      · intro hf
        simp only [h, if_false] at hf
        simp [himp hf]

/-- Targets emitted by the loop are body events. -/
theorem all_replicate_target (k : Nat) :
    (List.replicate k Ev.target).all isBodyEv = true := by
  induction k with
  | zero => rfl
  | succ n ih => simp [List.replicate_succ, ih, isBodyEv]

/-- Exact shape of a benchmark case body's trace: cleanup registration
first, then the resolved BeforeCall invocation, then a body tail, then the
registered cleanup's execution as the final event.  The tail consists only
of body events, and when the case passed it is precisely: timer reset, `N`
target invocations, timer stop, one report per accumulated metric (the
total divided by `float64(N)`), then the resolved Check invocation. -/
theorem runBenchBody_trace {σ Inst F I O : Type} (m : MethodBenchmarkMesa σ Inst F I O)
    (bb : MethodBenchmarkCase σ Inst F I O) (inst : Inst) (N : Nat) (o0 : O)
    (w : BWorld σ) (pre : List Ev) :
    ∃ tl : List Ev,
      (runBenchBody m bb inst N o0 w pre).1.trace =
        pre ++ [Ev.registerCleanup ((resolveHook bb.Cleanup m.Cleanup).map Prod.fst)] ++
          ((srcListOf (resolveHook bb.BeforeCall m.BeforeCall)).map Ev.beforeCall) ++ tl ++
          [Ev.cleanupRun ((resolveHook bb.Cleanup m.Cleanup).map Prod.fst)] ∧
      tl.all isBodyEv = true ∧
      ((runBenchBody m bb inst N o0 w pre).1.outcome = Outcome.passed →
        ∃ ms : Metrics,
          (runBenchBody m bb inst N o0 w pre).1.metricsAtReport = some ms ∧
          tl = Ev.resetTimer :: (List.replicate N Ev.target ++ Ev.stopTimer ::
            (ms.map (fun p => Ev.reportMetric p.1 (fdiv64 p.2 (natToF64 N))) ++
              (srcListOf (resolveHook bb.Check m.Check)).map Ev.check))) := by
  unfold runBenchBody
  by_cases hb : (runBefore (resolveHook bb.BeforeCall m.BeforeCall) w inst bb.Input).2.2 =
      ARes.failFatal
  · refine ⟨[], ?_, ?_, ?_⟩
    · simp [hb, finishBenchCase, runCleanupHook_events, runBefore_events]
    · rfl
    · simp [hb, finishBenchCase]
  · obtain ⟨k, _, hev, himp⟩ := benchLoop_events m.Target inst bb.Input N
      (runBefore (resolveHook bb.BeforeCall m.BeforeCall) w inst bb.Input).2.1 o0
    by_cases hl : (benchLoop m.Target inst bb.Input N
        (runBefore (resolveHook bb.BeforeCall m.BeforeCall) w inst bb.Input).2.1
        o0).2.2.2.2 = true
    · refine ⟨Ev.resetTimer :: List.replicate k Ev.target, ?_, ?_, ?_⟩
      · simp [hb, hl, finishBenchCase, runCleanupHook_events, runBefore_events, hev]
      · simp [isBodyEv, all_replicate_target]
      · simp [hb, hl, finishBenchCase]
    · have hkN : k = N := himp (by simpa using hl)
      subst hkN
      refine ⟨Ev.resetTimer :: (List.replicate k Ev.target ++ Ev.stopTimer ::
        (((benchLoop m.Target inst bb.Input k
            (runBefore (resolveHook bb.BeforeCall m.BeforeCall) w inst bb.Input).2.1
            o0).2.1.metrics.map
              (fun p => Ev.reportMetric p.1 (fdiv64 p.2 (natToF64 k)))) ++
          (srcListOf (resolveHook bb.Check m.Check)).map Ev.check)), ?_, ?_, ?_⟩
      · simp [hb, hl, finishBenchCase, runCleanupHook_events, runBefore_events, hev,
          runCheckHook_events]
      · simp only [List.all_cons, List.all_append, Bool.and_eq_true]
        refine ⟨rfl, all_replicate_target k, rfl, ?_, ?_⟩ <;>
          · rw [List.all_eq_true]
            intro e he
            simp only [List.mem_map] at he
            obtain ⟨p, -, h⟩ := he
            subst h
            rfl
      · intro _
        refine ⟨(benchLoop m.Target inst bb.Input k
            (runBefore (resolveHook bb.BeforeCall m.BeforeCall) w inst bb.Input).2.1
            o0).2.1.metrics, ?_, rfl⟩
        simp [hb, hl, finishBenchCase]

/-- The instance (and threaded state) constructed from provider-supplied
fields (method runner). -/
def provNew (m : MethodMesa σ Inst F I O) (ff : σ → F × σ) (s : σ) : Inst × σ :=
  m.NewInstance (ff s).2 (ff s).1

/-- The local case copy after provider resolution (method runner): the
providers' results overwrite the literal `Fields`/`Input` of the copy. -/
def caseWithProviders (m : MethodMesa σ Inst F I O) (tt : MethodCase σ Inst F I O)
    (ff : σ → F × σ) (g : σ → Inst → I × σ) (s : σ) : MethodCase σ Inst F I O :=
  { tt with
      Fields := (ff s).1
      Input := (g (provNew m ff s).2 (provNew m ff s).1).1 }

/-- The instance (and threaded world) constructed from provider-supplied
fields (benchmark runner; the case context starts with empty metrics). -/
def bProvNew (m : MethodBenchmarkMesa σ Inst F I O) (bff : BWorld σ → F × BWorld σ)
    (s : σ) : Inst × BWorld σ :=
  m.NewInstance (bff ⟨[], s⟩).2 (bff ⟨[], s⟩).1

/-- The local case copy after provider resolution (benchmark runner). -/
def benchCaseWithProviders (m : MethodBenchmarkMesa σ Inst F I O)
    (bb : MethodBenchmarkCase σ Inst F I O) (bff : BWorld σ → F × BWorld σ)
    (bg : BWorld σ → Inst → I × BWorld σ) (s : σ) : MethodBenchmarkCase σ Inst F I O :=
  { bb with
      Fields := (bff ⟨[], s⟩).1
      Input := (bg (bProvNew m bff s).2 (bProvNew m bff s).1).1 }

/-- Reduction of a non-skipped method case with both providers present (and
the input provider returning normally) to its body: the local case copy
carries the providers' results in `Fields`/`Input`, and the instance
constructor was fed the provider-supplied fields. -/
theorem runCase_eq_body (m : MethodMesa σ Inst F I O) (tt : MethodCase σ Inst F I O)
    (s : σ) (hskip : tt.Skip = "") (ff : σ → F × σ) (hff : tt.FieldsFn = some ff)
    (g : σ → Inst → I × σ) (hfi : tt.InputFn = some (fun a b => PRes.ok (g a b))) :
    runCase m tt s =
      runCaseBody m (caseWithProviders m tt ff g s) (provNew m ff s).1
        (g (provNew m ff s).2 (provNew m ff s).1).2
        [Ev.fieldsFn, Ev.newInstance, Ev.inputFn] := by
  simp [runCase, hskip, hff, hfi, caseWithProviders, provNew]

/-- Benchmark analogue of `runCase_eq_body`. -/
theorem runBenchCase_eq_body {σ Inst F I O : Type} (m : MethodBenchmarkMesa σ Inst F I O)
    (N : Nat) (o0 : O) (bb : MethodBenchmarkCase σ Inst F I O) (s2 : σ)
    (hskip : bb.Skip = "") (bff : BWorld σ → F × BWorld σ) (hbff : bb.FieldsFn = some bff)
    (bg : BWorld σ → Inst → I × BWorld σ) (hbfi : bb.InputFn = some bg) :
    runBenchCase m N o0 bb s2 =
      ((runBenchBody m (benchCaseWithProviders m bb bff bg s2) (bProvNew m bff s2).1 N o0
          (bg (bProvNew m bff s2).2 (bProvNew m bff s2).1).2
          [Ev.fieldsFn, Ev.newInstance, Ev.inputFn]).1,
        (runBenchBody m (benchCaseWithProviders m bb bff bg s2) (bProvNew m bff s2).1 N o0
          (bg (bProvNew m bff s2).2 (bProvNew m bff s2).1).2
          [Ev.fieldsFn, Ev.newInstance, Ev.inputFn]).2.user) := by
  simp [runBenchCase, hskip, hbff, hbfi, benchCaseWithProviders, bProvNew]

/-- **C5**: provider callbacks beat literals.  With a `FieldsFn` present,
the fields handed to `NewInstance` are the provider's result on the case's
fresh context — the literal `Fields` (arbitrary here, since the case is
universally quantified) is ignored; with an `InputFn` present, the input
handed to the target is the provider's result, computed from the
already-constructed instance, and the literal `Input` is ignored; each
provider fires exactly once in the case's trace.  Stated for both the
correctness and the benchmark runner. -/
theorem providers_override_literals {σ Inst F I O σ2 Inst2 F2 I2 O2 : Type}
    (m : MethodMesa σ Inst F I O) (tt : MethodCase σ Inst F I O) (s : σ)
    (ff : σ → F × σ) (g : σ → Inst → I × σ)
    (bm : MethodBenchmarkMesa σ2 Inst2 F2 I2 O2) (N : Nat) (o0 : O2)
    (bb : MethodBenchmarkCase σ2 Inst2 F2 I2 O2) (s2 : σ2)
    (bff : BWorld σ2 → F2 × BWorld σ2) (bg : BWorld σ2 → Inst2 → I2 × BWorld σ2)
    (hskip : tt.Skip = "") (hff : tt.FieldsFn = some ff)
    (hfi : tt.InputFn = some (fun a b => PRes.ok (g a b)))
    (hbskip : bb.Skip = "") (hbff : bb.FieldsFn = some bff) (hbfi : bb.InputFn = some bg) :
    ((runCase m tt s).1.usedFields = some (ff s).1 ∧
      (runCase m tt s).1.usedInput =
        some (g (provNew m ff s).2 (provNew m ff s).1).1 ∧
      (runCase m tt s).1.trace.count Ev.fieldsFn = 1 ∧
      (runCase m tt s).1.trace.count Ev.inputFn = 1) ∧
    ((runBenchCase bm N o0 bb s2).1.usedFields = some (bff ⟨[], s2⟩).1 ∧
      (runBenchCase bm N o0 bb s2).1.usedInput =
        some (bg (bProvNew bm bff s2).2 (bProvNew bm bff s2).1).1 ∧
      (runBenchCase bm N o0 bb s2).1.trace.count Ev.fieldsFn = 1 ∧
      (runBenchCase bm N o0 bb s2).1.trace.count Ev.inputFn = 1) := by
  constructor
  · rw [runCase_eq_body m tt s hskip ff hff g hfi]
    refine ⟨(runCaseBody_used m _ _ _ _).1, (runCaseBody_used m _ _ _ _).2.1, ?_, ?_⟩ <;>
      · obtain ⟨tl, htr, hopt, -⟩ := runCaseBody_trace m (caseWithProviders m tt ff g s)
          (provNew m ff s).1 (g (provNew m ff s).2 (provNew m ff s).1).2
          [Ev.fieldsFn, Ev.newInstance, Ev.inputFn]
        rw [htr]
        rcases hopt with h | h | h <;>
          subst h <;>
            simp [List.count_append, List.count_cons, srcListOf, List.count_eq_zero,
              List.mem_map]
  · rw [runBenchCase_eq_body bm N o0 bb s2 hbskip bff hbff bg hbfi]
    refine ⟨(runBenchBody_used bm _ _ _ _ _ _).1, (runBenchBody_used bm _ _ _ _ _ _).2.1,
      ?_, ?_⟩ <;>
      · obtain ⟨tl, htr, hall, -⟩ := runBenchBody_trace bm
          (benchCaseWithProviders bm bb bff bg s2) (bProvNew bm bff s2).1 N o0
          (bg (bProvNew bm bff s2).2 (bProvNew bm bff s2).1).2
          [Ev.fieldsFn, Ev.newInstance, Ev.inputFn]
        rw [htr]
        have htlF : tl.count Ev.fieldsFn = 0 := by
          rw [List.count_eq_zero]
          intro hmem
          have := List.all_eq_true.mp hall _ hmem
          simp [isBodyEv] at this
        have htlI : tl.count Ev.inputFn = 0 := by
          rw [List.count_eq_zero]
          intro hmem
          have := List.all_eq_true.mp hall _ hmem
          simp [isBodyEv] at this
        simp [List.count_append, List.count_cons, srcListOf, htlF, htlI,
          List.count_eq_zero, List.mem_map]

/-- Concrete method harness for the provider-precedence witness. -/
def provMesa : MethodMesa Unit Nat Nat Nat Nat :=
  { Init := none
    NewInstance := fun s f => (f + 1, s)
    Target := fun s inst i => (inst + i, s, ARes.ok)
    Cases := []
    BeforeCall := none
    Check := none
    Cleanup := none
    Teardown := none }

/-- Concrete method case whose providers shadow its (different) literals. -/
def provCase : MethodCase Unit Nat Nat Nat Nat :=
  { Name := "p"
    Fields := 99
    FieldsFn := some (fun s => (7, s))
    Input := 42
    InputFn := some (fun s inst => PRes.ok (inst + 1, s))
    Skip := ""
    BeforeCall := none
    Check := none
    Cleanup := none }

/-- Concrete benchmark harness for the provider-precedence witness. -/
def provBenchMesa : MethodBenchmarkMesa Unit Nat Nat Nat Nat :=
  { Init := none
    NewInstance := fun w f => (f + 1, w)
    Target := fun w inst i => (inst + i, w, ARes.ok)
    Cases := []
    Check := none
    BeforeCall := none
    Cleanup := none
    Teardown := none }

/-- Concrete benchmark case whose providers shadow its literals. -/
def provBenchCase : MethodBenchmarkCase Unit Nat Nat Nat Nat :=
  { Name := "p"
    Fields := 99
    FieldsFn := some (fun w => (7, w))
    Input := 42
    InputFn := some (fun w inst => (inst + 1, w))
    Check := none
    Skip := ""
    BeforeCall := none
    Cleanup := none }

/-- Witness for `providers_override_literals`: with `FieldsFn` returning 7
and `InputFn` returning instance + 1, the constructed fields are 7 and the
target input is 9 (the literals 99 and 42 are ignored). -/
theorem providers_override_literals_witness :
    ((runCase provMesa provCase ()).1.usedFields = some 7 ∧
      (runCase provMesa provCase ()).1.usedInput = some 9 ∧
      (runCase provMesa provCase ()).1.trace.count Ev.fieldsFn = 1 ∧
      (runCase provMesa provCase ()).1.trace.count Ev.inputFn = 1) ∧
    ((runBenchCase provBenchMesa 3 0 provBenchCase ()).1.usedFields = some 7 ∧
      (runBenchCase provBenchMesa 3 0 provBenchCase ()).1.usedInput = some 9 ∧
      (runBenchCase provBenchMesa 3 0 provBenchCase ()).1.trace.count Ev.fieldsFn = 1 ∧
      (runBenchCase provBenchMesa 3 0 provBenchCase ()).1.trace.count Ev.inputFn = 1) :=
  providers_override_literals provMesa provCase () (fun s => (7, s))
    (fun s inst => (inst + 1, s)) provBenchMesa 3 0 provBenchCase ()
    (fun w => (7, w)) (fun w inst => (inst + 1, w)) rfl rfl rfl rfl rfl rfl

/-- Trace decomposition of a whole non-skipped, non-panicking method case:
a setup prefix (provider/constructor events), the cleanup registration, the
resolved BeforeCall invocation, a body tail (empty / target / target-then-
resolved-Check depending on where a fatal assertion aborted), and the
registered cleanup's execution as the final event.  A passed outcome forces
the full tail. -/
theorem runCase_trace (m : MethodMesa σ Inst F I O) (tt : MethodCase σ Inst F I O)
    (s : σ) (hskip : tt.Skip = "")
    (hnc : (runCase m tt s).1.outcome ≠ Outcome.crashed) :
    ∃ pre tl : List Ev,
      (runCase m tt s).1.trace =
        pre ++ [Ev.registerCleanup ((resolveHook tt.Cleanup m.Cleanup).map Prod.fst)] ++
          ((srcListOf (resolveHook tt.BeforeCall m.BeforeCall)).map Ev.beforeCall) ++ tl ++
          [Ev.cleanupRun ((resolveHook tt.Cleanup m.Cleanup).map Prod.fst)] ∧
      pre.all isSetupEv = true ∧
      (tl = [] ∨ tl = [Ev.target] ∨
        tl = Ev.target :: (srcListOf (resolveHook tt.Check m.Check)).map Ev.check) ∧
      ((runCase m tt s).1.outcome = Outcome.passed →
        tl = Ev.target :: (srcListOf (resolveHook tt.Check m.Check)).map Ev.check) := by
  rcases hF : tt.FieldsFn with _ | ff <;> rcases hI : tt.InputFn with _ | f
  · rw [show runCase m tt s =
        runCaseBody m tt (m.NewInstance s tt.Fields).1 (m.NewInstance s tt.Fields).2
          [Ev.newInstance] from by simp [runCase, hskip, hF, hI]]
    obtain ⟨tl, htr, hopt, hp⟩ := runCaseBody_trace m tt (m.NewInstance s tt.Fields).1
      (m.NewInstance s tt.Fields).2 [Ev.newInstance]
    exact ⟨[Ev.newInstance], tl, htr, rfl, hopt, hp⟩
  · rcases hP : f (m.NewInstance s tt.Fields).2 (m.NewInstance s tt.Fields).1 with q2 | _
    · rw [show runCase m tt s =
          runCaseBody m { tt with Input := q2.1 } (m.NewInstance s tt.Fields).1 q2.2
            [Ev.newInstance, Ev.inputFn] from by simp [runCase, hskip, hF, hI, hP]]
      obtain ⟨tl, htr, hopt, hp⟩ := runCaseBody_trace m { tt with Input := q2.1 }
        (m.NewInstance s tt.Fields).1 q2.2 [Ev.newInstance, Ev.inputFn]
      exact ⟨[Ev.newInstance, Ev.inputFn], tl, htr, rfl, hopt, hp⟩
    · exfalso
      apply hnc
      simp [runCase, hskip, hF, hI, hP]
  · rw [show runCase m tt s =
        runCaseBody m { tt with Fields := (ff s).1 } (m.NewInstance (ff s).2 (ff s).1).1
          (m.NewInstance (ff s).2 (ff s).1).2
          [Ev.fieldsFn, Ev.newInstance] from by simp [runCase, hskip, hF, hI]]
    obtain ⟨tl, htr, hopt, hp⟩ := runCaseBody_trace m { tt with Fields := (ff s).1 }
      (m.NewInstance (ff s).2 (ff s).1).1 (m.NewInstance (ff s).2 (ff s).1).2
      [Ev.fieldsFn, Ev.newInstance]
    exact ⟨[Ev.fieldsFn, Ev.newInstance], tl, htr, rfl, hopt, hp⟩
  · rcases hP : f (m.NewInstance (ff s).2 (ff s).1).2 (m.NewInstance (ff s).2 (ff s).1).1
        with q2 | _
    · rw [show runCase m tt s =
          runCaseBody m { tt with Fields := (ff s).1, Input := q2.1 }
            (m.NewInstance (ff s).2 (ff s).1).1 q2.2
            [Ev.fieldsFn, Ev.newInstance, Ev.inputFn] from by
        simp [runCase, hskip, hF, hI, hP]]
      obtain ⟨tl, htr, hopt, hp⟩ := runCaseBody_trace m
        { tt with Fields := (ff s).1, Input := q2.1 }
        (m.NewInstance (ff s).2 (ff s).1).1 q2.2
        [Ev.fieldsFn, Ev.newInstance, Ev.inputFn]
      exact ⟨[Ev.fieldsFn, Ev.newInstance, Ev.inputFn], tl, htr, rfl, hopt, hp⟩
    · exfalso
      apply hnc
      simp [runCase, hskip, hF, hI, hP]

/-- Trace decomposition of a whole non-skipped benchmark case, with the
full passed-outcome tail: timer reset, `N` target invocations, timer stop,
one surfaced report per accumulated metric (total divided by `float64(N)`),
then the resolved Check. -/
theorem runBenchCase_trace {σ Inst F I O : Type} (m : MethodBenchmarkMesa σ Inst F I O)
    (N : Nat) (o0 : O) (bb : MethodBenchmarkCase σ Inst F I O) (s2 : σ)
    (hskip : bb.Skip = "") :
    ∃ pre tl : List Ev,
      (runBenchCase m N o0 bb s2).1.trace =
        pre ++ [Ev.registerCleanup ((resolveHook bb.Cleanup m.Cleanup).map Prod.fst)] ++
          ((srcListOf (resolveHook bb.BeforeCall m.BeforeCall)).map Ev.beforeCall) ++ tl ++
          [Ev.cleanupRun ((resolveHook bb.Cleanup m.Cleanup).map Prod.fst)] ∧
      pre.all isSetupEv = true ∧
      tl.all isBodyEv = true ∧
      ((runBenchCase m N o0 bb s2).1.outcome = Outcome.passed →
        ∃ ms : Metrics,
          (runBenchCase m N o0 bb s2).1.metricsAtReport = some ms ∧
          tl = Ev.resetTimer :: (List.replicate N Ev.target ++ Ev.stopTimer ::
            (ms.map (fun p => Ev.reportMetric p.1 (fdiv64 p.2 (natToF64 N))) ++
              (srcListOf (resolveHook bb.Check m.Check)).map Ev.check))) := by
  rcases hF : bb.FieldsFn with _ | ff <;> rcases hI : bb.InputFn with _ | f
  · rw [show runBenchCase m N o0 bb s2 =
        ((runBenchBody m bb (m.NewInstance ⟨[], s2⟩ bb.Fields).1 N o0
            (m.NewInstance ⟨[], s2⟩ bb.Fields).2 [Ev.newInstance]).1,
          (runBenchBody m bb (m.NewInstance ⟨[], s2⟩ bb.Fields).1 N o0
            (m.NewInstance ⟨[], s2⟩ bb.Fields).2 [Ev.newInstance]).2.user) from by
      simp [runBenchCase, hskip, hF, hI]]
    obtain ⟨tl, htr, hall, hp⟩ := runBenchBody_trace m bb
      (m.NewInstance ⟨[], s2⟩ bb.Fields).1 N o0 (m.NewInstance ⟨[], s2⟩ bb.Fields).2
      [Ev.newInstance]
    exact ⟨[Ev.newInstance], tl, htr, rfl, hall, hp⟩
  · rw [show runBenchCase m N o0 bb s2 =
        ((runBenchBody m
            { bb with Input := (f (m.NewInstance ⟨[], s2⟩ bb.Fields).2
                (m.NewInstance ⟨[], s2⟩ bb.Fields).1).1 }
            (m.NewInstance ⟨[], s2⟩ bb.Fields).1 N o0
            (f (m.NewInstance ⟨[], s2⟩ bb.Fields).2 (m.NewInstance ⟨[], s2⟩ bb.Fields).1).2
            [Ev.newInstance, Ev.inputFn]).1,
          (runBenchBody m
            { bb with Input := (f (m.NewInstance ⟨[], s2⟩ bb.Fields).2
                (m.NewInstance ⟨[], s2⟩ bb.Fields).1).1 }
            (m.NewInstance ⟨[], s2⟩ bb.Fields).1 N o0
            (f (m.NewInstance ⟨[], s2⟩ bb.Fields).2 (m.NewInstance ⟨[], s2⟩ bb.Fields).1).2
            [Ev.newInstance, Ev.inputFn]).2.user) from by
      simp [runBenchCase, hskip, hF, hI]]
    obtain ⟨tl, htr, hall, hp⟩ := runBenchBody_trace m
      { bb with Input := (f (m.NewInstance ⟨[], s2⟩ bb.Fields).2
          (m.NewInstance ⟨[], s2⟩ bb.Fields).1).1 }
      (m.NewInstance ⟨[], s2⟩ bb.Fields).1 N o0
      (f (m.NewInstance ⟨[], s2⟩ bb.Fields).2 (m.NewInstance ⟨[], s2⟩ bb.Fields).1).2
      [Ev.newInstance, Ev.inputFn]
    exact ⟨[Ev.newInstance, Ev.inputFn], tl, htr, rfl, hall, hp⟩
  · rw [show runBenchCase m N o0 bb s2 =
        ((runBenchBody m { bb with Fields := (ff ⟨[], s2⟩).1 }
            (m.NewInstance (ff ⟨[], s2⟩).2 (ff ⟨[], s2⟩).1).1 N o0
            (m.NewInstance (ff ⟨[], s2⟩).2 (ff ⟨[], s2⟩).1).2
            [Ev.fieldsFn, Ev.newInstance]).1,
          (runBenchBody m { bb with Fields := (ff ⟨[], s2⟩).1 }
            (m.NewInstance (ff ⟨[], s2⟩).2 (ff ⟨[], s2⟩).1).1 N o0
            (m.NewInstance (ff ⟨[], s2⟩).2 (ff ⟨[], s2⟩).1).2
            [Ev.fieldsFn, Ev.newInstance]).2.user) from by
      simp [runBenchCase, hskip, hF, hI]]
    obtain ⟨tl, htr, hall, hp⟩ := runBenchBody_trace m { bb with Fields := (ff ⟨[], s2⟩).1 }
      (m.NewInstance (ff ⟨[], s2⟩).2 (ff ⟨[], s2⟩).1).1 N o0
      (m.NewInstance (ff ⟨[], s2⟩).2 (ff ⟨[], s2⟩).1).2 [Ev.fieldsFn, Ev.newInstance]
    exact ⟨[Ev.fieldsFn, Ev.newInstance], tl, htr, rfl, hall, hp⟩
  · rw [show runBenchCase m N o0 bb s2 =
        ((runBenchBody m
            { bb with
                Fields := (ff ⟨[], s2⟩).1
                Input := (f (m.NewInstance (ff ⟨[], s2⟩).2 (ff ⟨[], s2⟩).1).2
                  (m.NewInstance (ff ⟨[], s2⟩).2 (ff ⟨[], s2⟩).1).1).1 }
            (m.NewInstance (ff ⟨[], s2⟩).2 (ff ⟨[], s2⟩).1).1 N o0
            (f (m.NewInstance (ff ⟨[], s2⟩).2 (ff ⟨[], s2⟩).1).2
              (m.NewInstance (ff ⟨[], s2⟩).2 (ff ⟨[], s2⟩).1).1).2
            [Ev.fieldsFn, Ev.newInstance, Ev.inputFn]).1,
          (runBenchBody m
            { bb with
                Fields := (ff ⟨[], s2⟩).1
                Input := (f (m.NewInstance (ff ⟨[], s2⟩).2 (ff ⟨[], s2⟩).1).2
                  (m.NewInstance (ff ⟨[], s2⟩).2 (ff ⟨[], s2⟩).1).1).1 }
            (m.NewInstance (ff ⟨[], s2⟩).2 (ff ⟨[], s2⟩).1).1 N o0
            (f (m.NewInstance (ff ⟨[], s2⟩).2 (ff ⟨[], s2⟩).1).2
              (m.NewInstance (ff ⟨[], s2⟩).2 (ff ⟨[], s2⟩).1).1).2
            [Ev.fieldsFn, Ev.newInstance, Ev.inputFn]).2.user) from by
      simp [runBenchCase, hskip, hF, hI]]
    obtain ⟨tl, htr, hall, hp⟩ := runBenchBody_trace m
      { bb with
          Fields := (ff ⟨[], s2⟩).1
          Input := (f (m.NewInstance (ff ⟨[], s2⟩).2 (ff ⟨[], s2⟩).1).2
            (m.NewInstance (ff ⟨[], s2⟩).2 (ff ⟨[], s2⟩).1).1).1 }
      (m.NewInstance (ff ⟨[], s2⟩).2 (ff ⟨[], s2⟩).1).1 N o0
      (f (m.NewInstance (ff ⟨[], s2⟩).2 (ff ⟨[], s2⟩).1).2
        (m.NewInstance (ff ⟨[], s2⟩).2 (ff ⟨[], s2⟩).1).1).2
      [Ev.fieldsFn, Ev.newInstance, Ev.inputFn]
    exact ⟨[Ev.fieldsFn, Ev.newInstance, Ev.inputFn], tl, htr, rfl, hall, hp⟩

/-- Every sub-run produced by the case loop is the run of the case at the
same position, at some intermediate user state: the loop never reorders,
duplicates, caches or merges cases. -/
theorem runCases_sub (m : MethodMesa σ Inst F I O) :
    ∀ (cs : List (MethodCase σ Inst F I O)) (s : σ) (i : Nat) (r : SubRun F I),
      (runCases m cs s).subruns[i]? = some r →
      ∃ tt s', cs[i]? = some tt ∧ r = (runCase m tt s').1
  | [], s, i, r => by simp [runCases]
  | c :: cs, s, i, r => by
    unfold runCases
    by_cases h : (runCase m c s).1.outcome = Outcome.crashed
    · simp only [h, if_true]
      cases i with
      | zero =>
        intro hr
        exact ⟨c, s, by simp, by simpa using hr.symm⟩
      | succ n =>
        intro hr
        simp at hr
    · simp only [h, if_false]
      cases i with
      | zero =>
        intro hr
        exact ⟨c, s, by simp, by simpa using hr.symm⟩
      | succ n =>
        intro hr
        obtain ⟨tt, s', h1, h2⟩ :=
          runCases_sub m cs (runCase m c s).2 n r (by simpa using hr)
        exact ⟨tt, s', by simpa using h1, h2⟩

/-- Benchmark analogue of `runCases_sub`. -/
theorem runBenchCases_sub {σ Inst F I O : Type} (m : MethodBenchmarkMesa σ Inst F I O)
    (N : Nat) (o0 : O) :
    ∀ (cs : List (MethodBenchmarkCase σ Inst F I O)) (s : σ) (i : Nat)
      (r : BenchSubRun σ Inst F I O),
      (runBenchCases m N o0 cs s).subruns[i]? = some r →
      ∃ bb s', cs[i]? = some bb ∧ r = (runBenchCase m N o0 bb s').1
  | [], s, i, r => by simp [runBenchCases]
  | c :: cs, s, i, r => by
    unfold runBenchCases
    cases i with
    | zero =>
      intro hr
      exact ⟨c, s, by simp, by simpa using hr.symm⟩
    | succ n =>
      intro hr
      obtain ⟨bb, s', h1, h2⟩ :=
        runBenchCases_sub m N o0 cs (runBenchCase m N o0 c s).2 n r (by simpa using hr)
      exact ⟨bb, s', by simpa using h1, h2⟩

/-- `filterMap` of a constantly-`none` function. -/
theorem filterMap_none_fun {α β : Type} (l : List α) :
    l.filterMap (fun _ => (none : Option β)) = [] := by
  induction l <;> simp_all

/-- A setup prefix contributes no hook-invocation observations. -/
theorem setup_srcs_nil (pre : List Ev) (h : pre.all isSetupEv = true) :
    beforeSrcs pre = [] ∧ checkSrcs pre = [] ∧ cleanupRunSrcs pre = [] ∧
    registerSrcs pre = [] := by
  refine ⟨?_, ?_, ?_, ?_⟩ <;>
    · simp only [beforeSrcs, checkSrcs, cleanupRunSrcs, registerSrcs,
        List.filterMap_eq_nil_iff]
      intro a ha
      have := List.all_eq_true.mp h a ha
      cases a <;> simp_all [isSetupEv]

/-- **C2**: per-kind hook resolution, evaluated freshly per case.  For any
position `i` of any case list, if the sub-run at `i` completed (passed),
the BeforeCall invocations in its trace are exactly the resolution of *that
case's* override against the harness default (case override wins, else
harness default, else nothing — and absent-absent is not an error), and
likewise — independently — for Check; the registered cleanup that ran is
exactly the resolved one.  Nothing from any sibling case enters the
resolution.  Stated for both the correctness and the benchmark runner. -/
theorem hookResolution_per_case {σ Inst F I O σ2 Inst2 F2 I2 O2 : Type}
    (m : MethodMesa σ Inst F I O) (cs : List (MethodCase σ Inst F I O)) (s : σ)
    (bm : MethodBenchmarkMesa σ2 Inst2 F2 I2 O2) (N : Nat) (o0 : O2)
    (bcs : List (MethodBenchmarkCase σ2 Inst2 F2 I2 O2)) (s2 : σ2) :
    (∀ (i : Nat) (r : SubRun F I) (tt : MethodCase σ Inst F I O),
      cs[i]? = some tt → (runCases m cs s).subruns[i]? = some r →
      tt.Skip = "" → r.outcome = Outcome.passed →
      beforeSrcs r.trace = srcListOf (resolveHook tt.BeforeCall m.BeforeCall) ∧
      checkSrcs r.trace = srcListOf (resolveHook tt.Check m.Check) ∧
      cleanupRunSrcs r.trace = [(resolveHook tt.Cleanup m.Cleanup).map Prod.fst]) ∧
    (∀ (i : Nat) (r : BenchSubRun σ2 Inst2 F2 I2 O2)
      (bb : MethodBenchmarkCase σ2 Inst2 F2 I2 O2),
      bcs[i]? = some bb → (runBenchCases bm N o0 bcs s2).subruns[i]? = some r →
      bb.Skip = "" → r.outcome = Outcome.passed →
      beforeSrcs r.trace = srcListOf (resolveHook bb.BeforeCall bm.BeforeCall) ∧
      checkSrcs r.trace = srcListOf (resolveHook bb.Check bm.Check) ∧
      cleanupRunSrcs r.trace = [(resolveHook bb.Cleanup bm.Cleanup).map Prod.fst]) := by
  constructor
  · intro i r tt hcs hr hsk hpass
    obtain ⟨tt', s', h1, h2⟩ := runCases_sub m cs s i r hr
    rw [hcs] at h1
    injection h1 with h1
    subst h1
    subst h2
    have hnc : (runCase m tt s').1.outcome ≠ Outcome.crashed := by
      rw [hpass]
      simp
    obtain ⟨pre, tl, htr, hsetup, -, hfull⟩ := runCase_trace m tt s' hsk hnc
    have htl := hfull hpass
    subst htl
    obtain ⟨hpb, hpc, hpcl, -⟩ := setup_srcs_nil pre hsetup
    simp only [beforeSrcs, checkSrcs, cleanupRunSrcs] at hpb hpc hpcl ⊢
    rw [htr]
    refine ⟨?_, ?_, ?_⟩ <;>
      simp [List.filterMap_append, List.filterMap_cons, List.filterMap_map,
        Function.comp_def, List.filterMap_some, filterMap_none_fun, hpb, hpc, hpcl]
  · intro i r bb hcs hr hsk hpass
    obtain ⟨bb', s', h1, h2⟩ := runBenchCases_sub bm N o0 bcs s2 i r hr
    rw [hcs] at h1
    injection h1 with h1
    subst h1
    subst h2
    obtain ⟨pre, tl, htr, hsetup, -, hfull⟩ := runBenchCase_trace bm N o0 bb s' hsk
    obtain ⟨ms, -, htl⟩ := hfull hpass
    subst htl
    obtain ⟨hpb, hpc, hpcl, -⟩ := setup_srcs_nil pre hsetup
    simp only [beforeSrcs, checkSrcs, cleanupRunSrcs] at hpb hpc hpcl ⊢
    rw [htr]
    refine ⟨?_, ?_, ?_⟩ <;>
      simp [List.filterMap_append, List.filterMap_cons, List.filterMap_map,
        Function.comp_def, List.filterMap_some, filterMap_none_fun, hpb, hpc, hpcl]

/-- Concrete case overriding only `Check` (inheriting BeforeCall/Cleanup). -/
def resCase : MethodCase Unit Unit Unit Unit Unit :=
  { unitCase "" with Check := some (fun s _ _ _ => (s, ARes.ok)) }

/-- Concrete harness with all three default hooks, used to witness hook
resolution: its single case overrides only `Check`. -/
def resMesa : MethodMesa Unit Unit Unit Unit Unit :=
  { unitMesa with
      Cases := [resCase]
      BeforeCall := some (fun s _ _ => (s, ARes.ok))
      Check := some (fun s _ _ _ => (s, ARes.ok))
      Cleanup := some (fun s _ => s) }

/-- Concrete benchmark case overriding only `Check`. -/
def resBenchCase : MethodBenchmarkCase Unit Unit Unit Unit Unit :=
  { unitBenchCase "" with Check := some (fun w _ _ _ => (w, ARes.ok)) }

/-- Concrete benchmark harness with all three default hooks. -/
def resBenchMesa : MethodBenchmarkMesa Unit Unit Unit Unit Unit :=
  { unitBenchMesa with
      Cases := [resBenchCase]
      Check := some (fun w _ _ _ => (w, ARes.ok))
      BeforeCall := some (fun w _ _ => (w, ARes.ok))
      Cleanup := some (fun w _ => w) }

/-- Witness for `hookResolution_per_case`: with a case-level `Check` and
harness-level defaults for all three kinds, exactly the harness BeforeCall,
the case Check and the harness Cleanup run. -/
theorem hookResolution_per_case_witness :
    (beforeSrcs (runCase resMesa resCase ()).1.trace = [HookSrc.fromMesa] ∧
      checkSrcs (runCase resMesa resCase ()).1.trace = [HookSrc.fromCase] ∧
      cleanupRunSrcs (runCase resMesa resCase ()).1.trace = [some HookSrc.fromMesa]) ∧
    (beforeSrcs (runBenchCase resBenchMesa 2 () resBenchCase ()).1.trace =
        [HookSrc.fromMesa] ∧
      checkSrcs (runBenchCase resBenchMesa 2 () resBenchCase ()).1.trace =
        [HookSrc.fromCase] ∧
      cleanupRunSrcs (runBenchCase resBenchMesa 2 () resBenchCase ()).1.trace =
        [some HookSrc.fromMesa]) :=
  ⟨(hookResolution_per_case resMesa [resCase] () resBenchMesa 2 () [resBenchCase] ()).1
      0 (runCase resMesa resCase ()).1 resCase rfl (by decide) rfl (by decide),
    (hookResolution_per_case resMesa [resCase] () resBenchMesa 2 () [resBenchCase] ()).2
      0 (runBenchCase resBenchMesa 2 () resBenchCase ()).1 resBenchCase rfl rfl
      rfl (by decide)⟩

/-- A body segment contains no cleanup registration and no cleanup
execution. -/
theorem body_srcs_nil (tl : List Ev) (h : tl.all isBodyEv = true) :
    cleanupRunSrcs tl = [] ∧ registerSrcs tl = [] := by
  constructor <;>
    · simp only [cleanupRunSrcs, registerSrcs, List.filterMap_eq_nil_iff]
      intro a ha
      have := List.all_eq_true.mp h a ha
      cases a <;> simp_all [isBodyEv]

/-- **C3**: for every non-skipped (and non-panicking) case, the resolved
cleanup is registered with the host's deferred-cleanup mechanism exactly
once, before the pre-call hook, the target invocation and the check hook
(which all live in the body segment that follows the registration), and the
registered cleanup executes exactly once, as the final event of the
sub-run — on every exit path, including a fatal assertion inside PreCall,
Target or Check (no passed-outcome hypothesis).  Stated for both runners. -/
theorem cleanup_registered_early_runs_once {σ Inst F I O σ2 Inst2 F2 I2 O2 : Type}
    (m : MethodMesa σ Inst F I O) (tt : MethodCase σ Inst F I O) (s : σ)
    (bm : MethodBenchmarkMesa σ2 Inst2 F2 I2 O2) (N : Nat) (o0 : O2)
    (bb : MethodBenchmarkCase σ2 Inst2 F2 I2 O2) (s2 : σ2)
    (hskip : tt.Skip = "") (hnc : (runCase m tt s).1.outcome ≠ Outcome.crashed)
    (hbskip : bb.Skip = "") :
    (registerSrcs (runCase m tt s).1.trace =
        [(resolveHook tt.Cleanup m.Cleanup).map Prod.fst] ∧
      cleanupRunSrcs (runCase m tt s).1.trace =
        [(resolveHook tt.Cleanup m.Cleanup).map Prod.fst] ∧
      ∃ pre mid : List Ev,
        (runCase m tt s).1.trace =
          pre ++ [Ev.registerCleanup ((resolveHook tt.Cleanup m.Cleanup).map Prod.fst)] ++
            mid ++ [Ev.cleanupRun ((resolveHook tt.Cleanup m.Cleanup).map Prod.fst)] ∧
        pre.all isSetupEv = true ∧ mid.all isBodyEv = true) ∧
    (registerSrcs (runBenchCase bm N o0 bb s2).1.trace =
        [(resolveHook bb.Cleanup bm.Cleanup).map Prod.fst] ∧
      cleanupRunSrcs (runBenchCase bm N o0 bb s2).1.trace =
        [(resolveHook bb.Cleanup bm.Cleanup).map Prod.fst] ∧
      ∃ pre mid : List Ev,
        (runBenchCase bm N o0 bb s2).1.trace =
          pre ++ [Ev.registerCleanup ((resolveHook bb.Cleanup bm.Cleanup).map Prod.fst)] ++
            mid ++ [Ev.cleanupRun ((resolveHook bb.Cleanup bm.Cleanup).map Prod.fst)] ∧
        pre.all isSetupEv = true ∧ mid.all isBodyEv = true) := by
  constructor
  · obtain ⟨pre, tl, htr, hsetup, hopt, -⟩ := runCase_trace m tt s hskip hnc
    have htlb : tl.all isBodyEv = true := by
      rcases hopt with h | h | h <;> subst h
      · rfl
      · rfl
      · rw [List.all_eq_true]
        intro e he
        rcases List.mem_cons.mp he with h | h
        · subst h
          rfl
        · obtain ⟨a, -, h⟩ := List.mem_map.mp h
          subst h
          rfl
    have hmapb : (((srcListOf (resolveHook tt.BeforeCall m.BeforeCall)).map
        Ev.beforeCall)).all isBodyEv = true := by
      rw [List.all_eq_true]
      intro e he
      obtain ⟨a, -, h⟩ := List.mem_map.mp he
      subst h
      rfl
    obtain ⟨-, -, hpcl, hpr⟩ := setup_srcs_nil pre hsetup
    obtain ⟨htcl, htre⟩ := body_srcs_nil tl htlb
    obtain ⟨hmcl, hmre⟩ := body_srcs_nil _ hmapb
    refine ⟨?_, ?_, pre, ((srcListOf (resolveHook tt.BeforeCall m.BeforeCall)).map
      Ev.beforeCall) ++ tl, ?_, hsetup, by simp [List.all_append, hmapb, htlb]⟩
    · simp only [registerSrcs, cleanupRunSrcs] at hpr htre hmre ⊢
      rw [htr]
      simp [List.filterMap_append, List.filterMap_cons, hpr, htre, hmre]
    · simp only [registerSrcs, cleanupRunSrcs] at hpcl htcl hmcl ⊢
      rw [htr]
      simp [List.filterMap_append, List.filterMap_cons, hpcl, htcl, hmcl]
    · rw [htr]
      simp [List.append_assoc]
  · obtain ⟨pre, tl, htr, hsetup, htlb, -⟩ := runBenchCase_trace bm N o0 bb s2 hbskip
    have hmapb : (((srcListOf (resolveHook bb.BeforeCall bm.BeforeCall)).map
        Ev.beforeCall)).all isBodyEv = true := by
      rw [List.all_eq_true]
      intro e he
      obtain ⟨a, -, h⟩ := List.mem_map.mp he
      subst h
      rfl
    obtain ⟨-, -, hpcl, hpr⟩ := setup_srcs_nil pre hsetup
    obtain ⟨htcl, htre⟩ := body_srcs_nil tl htlb
    obtain ⟨hmcl, hmre⟩ := body_srcs_nil _ hmapb
    refine ⟨?_, ?_, pre, ((srcListOf (resolveHook bb.BeforeCall bm.BeforeCall)).map
      Ev.beforeCall) ++ tl, ?_, hsetup, by simp [List.all_append, hmapb, htlb]⟩
    · simp only [registerSrcs, cleanupRunSrcs] at hpr htre hmre ⊢
      rw [htr]
      simp [List.filterMap_append, List.filterMap_cons, hpr, htre, hmre]
    · simp only [registerSrcs, cleanupRunSrcs] at hpcl htcl hmcl ⊢
      rw [htr]
      simp [List.filterMap_append, List.filterMap_cons, hpcl, htcl, hmcl]
    · rw [htr]
      simp [List.append_assoc]

/-- Concrete case with a case-level Cleanup and a fatally-failing
BeforeCall: the fatal abort path of C3's claim. -/
def fatalCase : MethodCase Unit Unit Unit Unit Unit :=
  { unitCase "" with
      BeforeCall := some (fun s _ _ => (s, ARes.failFatal))
      Cleanup := some (fun s _ => s) }

/-- Concrete benchmark case with a case-level Cleanup and a fatally-failing
BeforeCall. -/
def fatalBenchCase : MethodBenchmarkCase Unit Unit Unit Unit Unit :=
  { unitBenchCase "" with
      BeforeCall := some (fun w _ _ => (w, ARes.failFatal))
      Cleanup := some (fun w _ => w) }

/-- Witness for `cleanup_registered_early_runs_once` on the fatal-abort
path: even though BeforeCall fails fatally (the case is reported failed and
the target never runs), the case-level cleanup was registered and executed
exactly once. -/
theorem cleanup_registered_early_runs_once_witness :
    (registerSrcs (runCase unitMesa fatalCase ()).1.trace = [some HookSrc.fromCase] ∧
      cleanupRunSrcs (runCase unitMesa fatalCase ()).1.trace = [some HookSrc.fromCase] ∧
      ∃ pre mid : List Ev,
        (runCase unitMesa fatalCase ()).1.trace =
          pre ++ [Ev.registerCleanup (some HookSrc.fromCase)] ++
            mid ++ [Ev.cleanupRun (some HookSrc.fromCase)] ∧
        pre.all isSetupEv = true ∧ mid.all isBodyEv = true) ∧
    (registerSrcs (runBenchCase unitBenchMesa 2 () fatalBenchCase ()).1.trace =
        [some HookSrc.fromCase] ∧
      cleanupRunSrcs (runBenchCase unitBenchMesa 2 () fatalBenchCase ()).1.trace =
        [some HookSrc.fromCase] ∧
      ∃ pre mid : List Ev,
        (runBenchCase unitBenchMesa 2 () fatalBenchCase ()).1.trace =
          pre ++ [Ev.registerCleanup (some HookSrc.fromCase)] ++
            mid ++ [Ev.cleanupRun (some HookSrc.fromCase)] ∧
        pre.all isSetupEv = true ∧ mid.all isBodyEv = true) :=
  cleanup_registered_early_runs_once unitMesa fatalCase () unitBenchMesa 2 ()
    fatalBenchCase () rfl (by decide) rfl

/-- Every sub-run is named after its case, on every path. -/
theorem runCase_name (m : MethodMesa σ Inst F I O) (tt : MethodCase σ Inst F I O)
    (s : σ) : (runCase m tt s).1.name = tt.Name := by
  by_cases hsk : tt.Skip = ""
  · rcases hF : tt.FieldsFn with _ | ff <;> rcases hI : tt.InputFn with _ | f
    · rw [show runCase m tt s =
          runCaseBody m tt (m.NewInstance s tt.Fields).1 (m.NewInstance s tt.Fields).2
            [Ev.newInstance] from by simp [runCase, hsk, hF, hI]]
      exact (runCaseBody_used m _ _ _ _).2.2.1
    · rcases hP : f (m.NewInstance s tt.Fields).2 (m.NewInstance s tt.Fields).1 with q2 | _
      · rw [show runCase m tt s =
            runCaseBody m { tt with Input := q2.1 } (m.NewInstance s tt.Fields).1 q2.2
              [Ev.newInstance, Ev.inputFn] from by simp [runCase, hsk, hF, hI, hP]]
        exact (runCaseBody_used m _ _ _ _).2.2.1
      · simp [runCase, hsk, hF, hI, hP]
    · rw [show runCase m tt s =
          runCaseBody m { tt with Fields := (ff s).1 } (m.NewInstance (ff s).2 (ff s).1).1
            (m.NewInstance (ff s).2 (ff s).1).2 [Ev.fieldsFn, Ev.newInstance] from by
        simp [runCase, hsk, hF, hI]]
      exact (runCaseBody_used m _ _ _ _).2.2.1
    · rcases hP : f (m.NewInstance (ff s).2 (ff s).1).2 (m.NewInstance (ff s).2 (ff s).1).1
          with q2 | _
      · rw [show runCase m tt s =
            runCaseBody m { tt with Fields := (ff s).1, Input := q2.1 }
              (m.NewInstance (ff s).2 (ff s).1).1 q2.2
              [Ev.fieldsFn, Ev.newInstance, Ev.inputFn] from by
          simp [runCase, hsk, hF, hI, hP]]
        exact (runCaseBody_used m _ _ _ _).2.2.1
      · simp [runCase, hsk, hF, hI, hP]
  · simp [runCase, hsk]

/-- Benchmark analogue of `runCase_name`. -/
theorem runBenchCase_name {σ Inst F I O : Type} (m : MethodBenchmarkMesa σ Inst F I O)
    (N : Nat) (o0 : O) (bb : MethodBenchmarkCase σ Inst F I O) (s2 : σ) :
    (runBenchCase m N o0 bb s2).1.name = bb.Name := by
  by_cases hsk : bb.Skip = ""
  · unfold runBenchCase
    simp only [hsk, ne_eq, not_true_eq_false, if_false]
    rcases hF : bb.FieldsFn with _ | ff <;> rcases hI : bb.InputFn with _ | f <;>
      · simp only []
        exact (runBenchBody_used m _ _ _ _ _ _).2.2.1
  · simp [runBenchCase, hsk]

/-- When no case panicked, the loop reports one sub-run per case, in
order, each named after its case — regardless of pass/fail outcomes. -/
theorem runCases_length_names (m : MethodMesa σ Inst F I O) :
    ∀ (cs : List (MethodCase σ Inst F I O)) (s : σ),
      (runCases m cs s).crashed = false →
      (runCases m cs s).subruns.length = cs.length ∧
      (runCases m cs s).subruns.map (fun r => r.name) = cs.map (fun tt => tt.Name)
  | [], s => by simp [runCases]
  | c :: cs, s => by
    intro h
    unfold runCases at h ⊢
    by_cases hcr : (runCase m c s).1.outcome = Outcome.crashed
    · simp [hcr] at h
    · simp only [hcr, if_false] at h ⊢
      obtain ⟨h1, h2⟩ := runCases_length_names m cs (runCase m c s).2 (by simpa using h)
      refine ⟨by simp [h1], ?_⟩
      simp [h2, runCase_name]

/-- Benchmark analogue of `runCases_length_names` (no panic source). -/
theorem runBenchCases_length_names {σ Inst F I O : Type}
    (m : MethodBenchmarkMesa σ Inst F I O) (N : Nat) (o0 : O) :
    ∀ (cs : List (MethodBenchmarkCase σ Inst F I O)) (s : σ),
      (runBenchCases m N o0 cs s).subruns.length = cs.length ∧
      (runBenchCases m N o0 cs s).subruns.map (fun r => r.name) =
        cs.map (fun bb => bb.Name)
  | [], s => by simp [runBenchCases]
  | c :: cs, s => by
    unfold runBenchCases
    obtain ⟨h1, h2⟩ := runBenchCases_length_names m N o0 cs (runBenchCase m N o0 c s).2
    exact ⟨by simp [h1], by simp [h2, runBenchCase_name]⟩

/-- Whether the (optional) batch Init does not fail fatally at this state. -/
def initNotFatal {σ : Type} (init : Option (σ → σ × ARes)) (s : σ) : Prop :=
  ∀ f, init = some f → (f s).2 ≠ ARes.failFatal

/-- **C8**: batch lifecycle and failure scoping.  If the batch Init fails
fatally, no case runs and Teardown does not run (the fatal abort happens
before the `defer` registers it).  If Init does not fail fatally (or is
absent) and no case panicked, Teardown runs precisely when one is present,
and *every* case produced its own sub-run, in order and under its own name,
whatever failures sibling cases recorded — failures are scoped to their
case's sub-run.  Stated for both runners. -/
theorem init_teardown_and_case_isolation {σ Inst F I O σ2 Inst2 F2 I2 O2 : Type}
    (m : MethodMesa σ Inst F I O) (s : σ)
    (bm : MethodBenchmarkMesa σ2 Inst2 F2 I2 O2) (N : Nat) (o0 : O2) (s2 : σ2) :
    (∀ f, m.Init = some f → (f s).2 = ARes.failFatal →
      (m.run s).1.subruns = [] ∧ (m.run s).1.teardownRan = false ∧
      (m.run s).1.initFatal = true) ∧
    (initNotFatal m.Init s → (m.run s).1.crashed = false →
      (m.run s).1.teardownRan = m.Teardown.isSome ∧
      (m.run s).1.subruns.length = m.Cases.length ∧
      (m.run s).1.subruns.map (fun r => r.name) = m.Cases.map (fun tt => tt.Name)) ∧
    (∀ f, bm.Init = some f → (f s2).2 = ARes.failFatal →
      (bm.run N o0 s2).1.subruns = [] ∧ (bm.run N o0 s2).1.teardownRan = false ∧
      (bm.run N o0 s2).1.initFatal = true) ∧
    (initNotFatal bm.Init s2 →
      (bm.run N o0 s2).1.teardownRan = bm.Teardown.isSome ∧
      (bm.run N o0 s2).1.subruns.length = bm.Cases.length ∧
      (bm.run N o0 s2).1.subruns.map (fun r => r.name) =
        bm.Cases.map (fun bb => bb.Name)) := by
  refine ⟨?_, ?_, ?_, ?_⟩
  · intro f hf hfat
    simp [MethodMesa.run, hf, hfat]
  · intro hnf hnc
    have hmain : ∀ s1, (runCases m m.Cases s1).crashed = false →
        (runMain m s1).1.teardownRan = m.Teardown.isSome ∧
        (runMain m s1).1.subruns.length = m.Cases.length ∧
        (runMain m s1).1.subruns.map (fun r => r.name) =
          m.Cases.map (fun tt => tt.Name) := by
      intro s1 hcr
      obtain ⟨h1, h2⟩ := runCases_length_names m m.Cases s1 hcr
      unfold runMain
      simp only [hcr, if_false, Bool.false_eq_true]
      match hT : m.Teardown with
      | some td => exact ⟨rfl, h1, h2⟩
      | none => exact ⟨rfl, h1, h2⟩
    match hI : m.Init with
    | none =>
      have hcr : (runCases m m.Cases s).crashed = false := by
        revert hnc
        unfold MethodMesa.run runMain
        simp only [hI]
        by_cases hcr : (runCases m m.Cases s).crashed
        · simp [hcr]
        · simp [hcr]
      have := hmain s hcr
      unfold MethodMesa.run
      simpa [hI] using this
    | some f =>
      have hok : ¬((f s).2 = ARes.failFatal) := hnf f hI
      have hcr : (runCases m m.Cases (f s).1).crashed = false := by
        revert hnc
        unfold MethodMesa.run runMain
        simp only [hI, hok, if_false]
        by_cases hcr : (runCases m m.Cases (f s).1).crashed
        · simp [hcr]
        · simp [hcr]
      have := hmain (f s).1 hcr
      unfold MethodMesa.run
      simpa [hI, hok] using this
  · intro f hf hfat
    simp [MethodBenchmarkMesa.run, hf, hfat]
  · intro hnf
    have hmain : ∀ s1,
        (runBenchMain bm N o0 s1).1.teardownRan = bm.Teardown.isSome ∧
        (runBenchMain bm N o0 s1).1.subruns.length = bm.Cases.length ∧
        (runBenchMain bm N o0 s1).1.subruns.map (fun r => r.name) =
          bm.Cases.map (fun bb => bb.Name) := by
      intro s1
      obtain ⟨h1, h2⟩ := runBenchCases_length_names bm N o0 bm.Cases s1
      unfold runBenchMain
      match hT : bm.Teardown with
      | some td => exact ⟨rfl, h1, h2⟩
      | none => exact ⟨rfl, h1, h2⟩
    match hI : bm.Init with
    | none =>
      have := hmain s2
      unfold MethodBenchmarkMesa.run
      simpa [hI] using this
    | some f =>
      have hok : ¬((f s2).2 = ARes.failFatal) := hnf f hI
      have := hmain (f s2).1
      unfold MethodBenchmarkMesa.run
      simpa [hI, hok] using this

/-- Harness whose Init fails fatally (it has a case and a Teardown, neither
of which must run). -/
def initFatalMesa : MethodMesa Unit Unit Unit Unit Unit :=
  { unitMesa with
      Init := some (fun s => (s, ARes.failFatal))
      Cases := [unitCase ""]
      Teardown := some (fun s => s) }

/-- Harness whose first case fails (non-fatally) while a sibling passes,
with a Teardown present. -/
def failCaseMesa : MethodMesa Unit Unit Unit Unit Unit :=
  { unitMesa with
      Cases := [{ unitCase "" with Check := some (fun s _ _ _ => (s, ARes.failNonfatal)) },
        unitCase ""]
      Teardown := some (fun s => s) }

/-- Benchmark harness whose Init fails fatally. -/
def initFatalBenchMesa : MethodBenchmarkMesa Unit Unit Unit Unit Unit :=
  { unitBenchMesa with
      Init := some (fun s => (s, ARes.failFatal))
      Cases := [unitBenchCase ""]
      Teardown := some (fun s => s) }

/-- Benchmark harness whose first case fails fatally while a sibling
passes, with a Teardown present. -/
def failCaseBenchMesa : MethodBenchmarkMesa Unit Unit Unit Unit Unit :=
  { unitBenchMesa with
      Cases := [{ unitBenchCase "" with
        Check := some (fun w _ _ _ => (w, ARes.failFatal)) }, unitBenchCase ""]
      Teardown := some (fun s => s) }

/-- Witness for `init_teardown_and_case_isolation`: a fatally-failing Init
yields no sub-runs and no Teardown; with failing cases (one non-fatal in
the test harness, one fatal in the benchmark harness) both sibling cases
still produce their own sub-runs and Teardown still runs. -/
theorem init_teardown_and_case_isolation_witness :
    ((initFatalMesa.run ()).1.subruns = [] ∧
      (initFatalMesa.run ()).1.teardownRan = false ∧
      (initFatalMesa.run ()).1.initFatal = true) ∧
    ((failCaseMesa.run ()).1.teardownRan = failCaseMesa.Teardown.isSome ∧
      (failCaseMesa.run ()).1.subruns.length = failCaseMesa.Cases.length ∧
      (failCaseMesa.run ()).1.subruns.map (fun r => r.name) =
        failCaseMesa.Cases.map (fun tt => tt.Name)) ∧
    ((initFatalBenchMesa.run 2 () ()).1.subruns = [] ∧
      (initFatalBenchMesa.run 2 () ()).1.teardownRan = false ∧
      (initFatalBenchMesa.run 2 () ()).1.initFatal = true) ∧
    ((failCaseBenchMesa.run 2 () ()).1.teardownRan = failCaseBenchMesa.Teardown.isSome ∧
      (failCaseBenchMesa.run 2 () ()).1.subruns.length = failCaseBenchMesa.Cases.length ∧
      (failCaseBenchMesa.run 2 () ()).1.subruns.map (fun r => r.name) =
        failCaseBenchMesa.Cases.map (fun bb => bb.Name)) :=
  ⟨(init_teardown_and_case_isolation initFatalMesa () unitBenchMesa 2 () ()).1
      (fun s => (s, ARes.failFatal)) rfl rfl,
    (init_teardown_and_case_isolation failCaseMesa () unitBenchMesa 2 () ()).2.1
      (fun f h => Option.noConfusion h) (by decide),
    (init_teardown_and_case_isolation unitMesa () initFatalBenchMesa 2 () ()).2.2.1
      (fun s => (s, ARes.failFatal)) rfl rfl,
    (init_teardown_and_case_isolation unitMesa () failCaseBenchMesa 2 () ()).2.2.2
      (fun f h => Option.noConfusion h)⟩

/-- The world after `n` invocations of the target on a fixed instance and
input (the reference iteration the timed loop is compared against). -/
def benchIter {σ Inst I O : Type} (tgt : BWorld σ → Inst → I → O × BWorld σ × ARes)
    (inst : Inst) (inp : I) : Nat → BWorld σ → BWorld σ
  | 0, w => w
  | n + 1, w => benchIter tgt inst inp n (tgt w inst inp).2.1

/-- The output of the `N`-th (final) target invocation; for `N = 0` the
zero value `o0` of the output type (Go's `var out O`). -/
def benchNthOut {σ Inst I O : Type} (tgt : BWorld σ → Inst → I → O × BWorld σ × ARes)
    (inst : Inst) (inp : I) (N : Nat) (w : BWorld σ) (o0 : O) : O :=
  match N with
  | 0 => o0
  | n + 1 => (tgt (benchIter tgt inst inp n w) inst inp).1

/-- Unfolding of `benchNthOut` along one loop step. -/
theorem benchNthOut_succ {σ Inst I O : Type}
    (tgt : BWorld σ → Inst → I → O × BWorld σ × ARes) (inst : Inst) (inp : I)
    (n : Nat) (w : BWorld σ) (o0 : O) :
    benchNthOut tgt inst inp (n + 1) w o0 =
      benchNthOut tgt inst inp n (tgt w inst inp).2.1 (tgt w inst inp).1 := by
  cases n <;> rfl

/-- When no fatal assertion fires, the timed loop is exactly `N` reference
iterations: `N` target events, the reference final world, and the `N`-th
output retained in `out`. -/
theorem benchLoop_no_fatal {σ Inst I O : Type}
    (tgt : BWorld σ → Inst → I → O × BWorld σ × ARes) (inst : Inst) (inp : I) :
    ∀ (N : Nat) (w : BWorld σ) (o0 : O),
      (benchLoop tgt inst inp N w o0).2.2.2.2 = false →
      (benchLoop tgt inst inp N w o0).1 = List.replicate N Ev.target ∧
      (benchLoop tgt inst inp N w o0).2.1 = benchIter tgt inst inp N w ∧
      (benchLoop tgt inst inp N w o0).2.2.1 = benchNthOut tgt inst inp N w o0
  | 0, w, o0 => by
    intro h
    exact ⟨rfl, rfl, rfl⟩
  | N + 1, w, o0 => by
    intro h
    unfold benchLoop at h ⊢
    by_cases hf : (tgt w inst inp).2.2 = ARes.failFatal
    · simp [hf] at h
    · simp only [hf, if_false] at h ⊢
      obtain ⟨h1, h2, h3⟩ := benchLoop_no_fatal tgt inst inp N (tgt w inst inp).2.1
        (tgt w inst inp).1 (by simpa using h)
      refine ⟨by simp [h1, List.replicate_succ], by simpa using h2, ?_⟩
      rw [benchNthOut_succ]
      simpa using h3

/-- On a passed benchmark body the loop-entry snapshot was recorded and the
Check step received exactly the `N`-th reference output. -/
theorem runBenchBody_out {σ Inst F I O : Type} (m : MethodBenchmarkMesa σ Inst F I O)
    (bb : MethodBenchmarkCase σ Inst F I O) (inst : Inst) (N : Nat) (o0 : O)
    (w : BWorld σ) (pre : List Ev)
    (hpassed : (runBenchBody m bb inst N o0 w pre).1.outcome = Outcome.passed) :
    ∃ wE, (runBenchBody m bb inst N o0 w pre).1.loopEntry = some (wE, inst, bb.Input) ∧
      (runBenchBody m bb inst N o0 w pre).1.usedCheckOut =
        some (benchNthOut m.Target inst bb.Input N wE o0) := by
  unfold runBenchBody at hpassed ⊢
  by_cases hb : (runBefore (resolveHook bb.BeforeCall m.BeforeCall) w inst bb.Input).2.2 =
      ARes.failFatal
  · simp [hb, finishBenchCase] at hpassed
  · by_cases hl : (benchLoop m.Target inst bb.Input N
        (runBefore (resolveHook bb.BeforeCall m.BeforeCall) w inst bb.Input).2.1
        o0).2.2.2.2 = true
    · simp [hb, hl, finishBenchCase] at hpassed
    · simp only [hb, if_false, hl, Bool.false_eq_true, finishBenchCase]
      refine ⟨(runBefore (resolveHook bb.BeforeCall m.BeforeCall) w inst bb.Input).2.1,
        rfl, ?_⟩
      have h3 := (benchLoop_no_fatal m.Target inst bb.Input N
        (runBefore (resolveHook bb.BeforeCall m.BeforeCall) w inst bb.Input).2.1 o0
        (by simpa using hl)).2.2
      simp [h3]

/-- Any non-skipped benchmark case reduces to some benchmark body whose
case copy differs from the original only in `Fields`/`Input`, run after a
setup-only prefix. -/
theorem runBenchCase_body_exists {σ Inst F I O : Type}
    (m : MethodBenchmarkMesa σ Inst F I O) (N : Nat) (o0 : O)
    (bb : MethodBenchmarkCase σ Inst F I O) (s2 : σ) (hskip : bb.Skip = "") :
    ∃ (bbR : MethodBenchmarkCase σ Inst F I O) (instR : Inst) (wR : BWorld σ)
      (preR : List Ev),
      runBenchCase m N o0 bb s2 =
        ((runBenchBody m bbR instR N o0 wR preR).1,
          (runBenchBody m bbR instR N o0 wR preR).2.user) ∧
      bbR.Name = bb.Name ∧ bbR.Skip = bb.Skip ∧ bbR.BeforeCall = bb.BeforeCall ∧
      bbR.Check = bb.Check ∧ bbR.Cleanup = bb.Cleanup ∧ preR.all isSetupEv = true := by
  rcases hF : bb.FieldsFn with _ | ff <;> rcases hI : bb.InputFn with _ | f
  · exact ⟨bb, (m.NewInstance ⟨[], s2⟩ bb.Fields).1, (m.NewInstance ⟨[], s2⟩ bb.Fields).2,
      [Ev.newInstance], by simp [runBenchCase, hskip, hF, hI], rfl, rfl, rfl, rfl, rfl,
      rfl⟩
  · exact ⟨{ bb with Input := (f (m.NewInstance ⟨[], s2⟩ bb.Fields).2
        (m.NewInstance ⟨[], s2⟩ bb.Fields).1).1 },
      (m.NewInstance ⟨[], s2⟩ bb.Fields).1,
      (f (m.NewInstance ⟨[], s2⟩ bb.Fields).2 (m.NewInstance ⟨[], s2⟩ bb.Fields).1).2,
      [Ev.newInstance, Ev.inputFn], by simp [runBenchCase, hskip, hF, hI], rfl, rfl, rfl,
      rfl, rfl, rfl⟩
  · exact ⟨{ bb with Fields := (ff ⟨[], s2⟩).1 },
      (m.NewInstance (ff ⟨[], s2⟩).2 (ff ⟨[], s2⟩).1).1,
      (m.NewInstance (ff ⟨[], s2⟩).2 (ff ⟨[], s2⟩).1).2,
      [Ev.fieldsFn, Ev.newInstance], by simp [runBenchCase, hskip, hF, hI], rfl, rfl,
      rfl, rfl, rfl, rfl⟩
  · exact ⟨{ bb with
        Fields := (ff ⟨[], s2⟩).1
        Input := (f (m.NewInstance (ff ⟨[], s2⟩).2 (ff ⟨[], s2⟩).1).2
          (m.NewInstance (ff ⟨[], s2⟩).2 (ff ⟨[], s2⟩).1).1).1 },
      (m.NewInstance (ff ⟨[], s2⟩).2 (ff ⟨[], s2⟩).1).1,
      (f (m.NewInstance (ff ⟨[], s2⟩).2 (ff ⟨[], s2⟩).1).2
        (m.NewInstance (ff ⟨[], s2⟩).2 (ff ⟨[], s2⟩).1).1).2,
      [Ev.fieldsFn, Ev.newInstance, Ev.inputFn], by simp [runBenchCase, hskip, hF, hI],
      rfl, rfl, rfl, rfl, rfl, rfl⟩

/-- **C7**: on every passed, non-skipped benchmark case the timer is reset
after the pre-call hook, the target is invoked exactly `N` contiguous times
inside the timed bracket, the timer is stopped before the metric reports
and before Check, and the Check step receives exactly the output of the
`N`-th (final) invocation of the target from the loop-entry world —
intermediate outputs are not observable. -/
theorem benchmark_loop_times_target {σ Inst F I O : Type}
    (bm : MethodBenchmarkMesa σ Inst F I O) (N : Nat) (o0 : O)
    (bb : MethodBenchmarkCase σ Inst F I O) (s2 : σ)
    (hskip : bb.Skip = "")
    (hpassed : (runBenchCase bm N o0 bb s2).1.outcome = Outcome.passed) :
    targetCount (runBenchCase bm N o0 bb s2).1.trace = N ∧
    (∃ (pre : List Ev) (ms : Metrics),
      (runBenchCase bm N o0 bb s2).1.metricsAtReport = some ms ∧
      (runBenchCase bm N o0 bb s2).1.trace =
        pre ++ [Ev.registerCleanup ((resolveHook bb.Cleanup bm.Cleanup).map Prod.fst)] ++
          ((srcListOf (resolveHook bb.BeforeCall bm.BeforeCall)).map Ev.beforeCall) ++
          [Ev.resetTimer] ++ List.replicate N Ev.target ++ [Ev.stopTimer] ++
          ms.map (fun p => Ev.reportMetric p.1 (fdiv64 p.2 (natToF64 N))) ++
          ((srcListOf (resolveHook bb.Check bm.Check)).map Ev.check) ++
          [Ev.cleanupRun ((resolveHook bb.Cleanup bm.Cleanup).map Prod.fst)] ∧
      pre.all isSetupEv = true) ∧
    (∃ (wE : BWorld σ) (iE : Inst) (inpE : I),
      (runBenchCase bm N o0 bb s2).1.loopEntry = some (wE, iE, inpE) ∧
      (runBenchCase bm N o0 bb s2).1.usedCheckOut =
        some (benchNthOut bm.Target iE inpE N wE o0)) := by
  obtain ⟨pre, tl, htr, hsetup, -, hfull⟩ := runBenchCase_trace bm N o0 bb s2 hskip
  obtain ⟨ms, hms, htl⟩ := hfull hpassed
  subst htl
  refine ⟨?_, ⟨pre, ms, hms, ?_, hsetup⟩, ?_⟩
  · have hpre : pre.count Ev.target = 0 := by
      rw [List.count_eq_zero]
      intro hmem
      have := List.all_eq_true.mp hsetup _ hmem
      simp [isSetupEv] at this
    have h1 : List.count Ev.target
        (List.map Ev.beforeCall (srcListOf (resolveHook bb.BeforeCall bm.BeforeCall))) =
        0 := by
      rw [List.count_eq_zero]
      simp [List.mem_map]
    have h2 : List.count Ev.target
        (List.map (fun p => Ev.reportMetric p.1 (fdiv64 p.2 (natToF64 N))) ms) = 0 := by
      rw [List.count_eq_zero]
      simp [List.mem_map]
    have h3 : List.count Ev.target
        (List.map Ev.check (srcListOf (resolveHook bb.Check bm.Check))) = 0 := by
      rw [List.count_eq_zero]
      simp [List.mem_map]
    unfold targetCount
    rw [htr]
    simp [List.count_append, List.count_cons, hpre, h1, h2, h3]
  · rw [htr]
    simp [List.append_assoc]
  · obtain ⟨bbR, instR, wR, preR, heq, -, -, -, -, -, -⟩ :=
      runBenchCase_body_exists bm N o0 bb s2 hskip
    rw [heq] at hpassed ⊢
    obtain ⟨wE, hle, hout⟩ := runBenchBody_out bm bbR instR N o0 wR preR hpassed
    exact ⟨wE, instR, bbR.Input, hle, hout⟩

/-- Concrete benchmark case for the loop witness. -/
def ctrBenchCase : MethodBenchmarkCase Nat Unit Unit Unit Nat :=
  { Name := "ctr"
    Fields := ()
    FieldsFn := none
    Input := ()
    InputFn := none
    Check := none
    Skip := ""
    BeforeCall := none
    Cleanup := none }

/-- Concrete benchmark harness whose target counts its own invocations in
the user state and returns the count. -/
def ctrBenchMesa : MethodBenchmarkMesa Nat Unit Unit Unit Nat :=
  { Init := none
    NewInstance := fun w _ => ((), w)
    Target := fun w _ _ => (w.user + 1, { w with user := w.user + 1 }, ARes.ok)
    Cases := [ctrBenchCase]
    Check := some (fun w _ _ _ => (w, ARes.ok))
    BeforeCall := none
    Cleanup := none
    Teardown := none }

/-- Witness for `benchmark_loop_times_target` at `N = 3` on the counting
target. -/
theorem benchmark_loop_times_target_witness :
    targetCount (runBenchCase ctrBenchMesa 3 0 ctrBenchCase 0).1.trace = 3 ∧
    (∃ (pre : List Ev) (ms : Metrics),
      (runBenchCase ctrBenchMesa 3 0 ctrBenchCase 0).1.metricsAtReport = some ms ∧
      (runBenchCase ctrBenchMesa 3 0 ctrBenchCase 0).1.trace =
        pre ++ [Ev.registerCleanup ((resolveHook ctrBenchCase.Cleanup
            ctrBenchMesa.Cleanup).map Prod.fst)] ++
          ((srcListOf (resolveHook ctrBenchCase.BeforeCall
            ctrBenchMesa.BeforeCall)).map Ev.beforeCall) ++
          [Ev.resetTimer] ++ List.replicate 3 Ev.target ++ [Ev.stopTimer] ++
          ms.map (fun p => Ev.reportMetric p.1 (fdiv64 p.2 (natToF64 3))) ++
          ((srcListOf (resolveHook ctrBenchCase.Check ctrBenchMesa.Check)).map Ev.check) ++
          [Ev.cleanupRun ((resolveHook ctrBenchCase.Cleanup
            ctrBenchMesa.Cleanup).map Prod.fst)] ∧
      pre.all isSetupEv = true) ∧
    (∃ (wE : BWorld Nat) (iE : Unit) (inpE : Unit),
      (runBenchCase ctrBenchMesa 3 0 ctrBenchCase 0).1.loopEntry = some (wE, iE, inpE) ∧
      (runBenchCase ctrBenchMesa 3 0 ctrBenchCase 0).1.usedCheckOut =
        some (benchNthOut ctrBenchMesa.Target iE inpE 3 wE 0)) :=
  benchmark_loop_times_target ctrBenchMesa 3 0 ctrBenchCase 0 rfl rfl

/-- A user target that reports the fixed value `v` under `name` on every
invocation (the shape quantified by C6's "reporting the same value v"). -/
def reportingTarget (v : F64) (name : String) :
    BWorld Unit → Unit → Unit → Unit × BWorld Unit × ARes :=
  fun w _ _ => ((), reportMetric v name w, ARes.ok)

/-- Benchmark harness around `reportingTarget`, with a harness-level Check
so that "reported before Check runs" is observable. -/
def reportingBenchMesa (v : F64) (name : String) :
    MethodBenchmarkMesa Unit Unit Unit Unit Unit :=
  { Init := none
    NewInstance := fun w _ => ((), w)
    Target := reportingTarget v name
    Cases := [unitBenchCase ""]
    Check := some (fun w _ _ _ => (w, ARes.ok))
    BeforeCall := none
    Cleanup := none
    Teardown := none }

/-- The float64 running total after `n` accumulations of `v` into a fresh
metric slot (Go: a missing map key reads as `+0`, then `+=` each time). -/
def sumNAcc (v : F64) : Nat → F64
  | 0 => 0
  | n + 1 => fadd64 (sumNAcc v n) v

/-- `k`-fold iteration of `ReportMetric v name`. -/
def reportIter (v : F64) (name : String) : Nat → BWorld Unit → BWorld Unit
  | 0, w => w
  | k + 1, w => reportIter v name k (reportMetric v name w)

/-- Accumulator-style `k`-fold float64 addition of `v` starting from `a`. -/
def accAdd (v : F64) (a : F64) : Nat → F64
  | 0 => a
  | k + 1 => accAdd v (fadd64 a v) k

/-- The timed loop over `reportingTarget` never aborts and just iterates
`ReportMetric`. -/
theorem reportingLoop (v : F64) (name : String) :
    ∀ (k : Nat) (w : BWorld Unit),
      benchLoop (reportingTarget v name) () () k w () =
        (List.replicate k Ev.target, reportIter v name k w, (), false, false)
  | 0, w => rfl
  | k + 1, w => by
    unfold benchLoop
    simp [reportingTarget, reportingLoop v name k, reportIter, List.replicate_succ]

/-- Iterating `ReportMetric` on a single-slot metrics map accumulates into
that slot. -/
theorem reportIter_single (v : F64) (name : String) :
    ∀ (k : Nat) (a : F64),
      reportIter v name k ⟨[(name, a)], ()⟩ = ⟨[(name, accAdd v a k)], ()⟩
  | 0, a => rfl
  | k + 1, a => by
    unfold reportIter
    simp [reportMetric, addMetric, reportIter_single v name k, accAdd]

/-- Unfolding of `accAdd` at the far end. -/
theorem accAdd_succ (v : F64) :
    ∀ (k : Nat) (a : F64), accAdd v a (k + 1) = fadd64 (accAdd v a k) v
  | 0, a => rfl
  | k + 1, a => by
    have := accAdd_succ v k (fadd64 a v)
    simpa [accAdd] using this

/-- The accumulated single-slot total is the left fold of C6's statement. -/
theorem accAdd_eq_sumNAcc (v : F64) :
    ∀ n : Nat, accAdd v (fadd64 0 v) n = sumNAcc v (n + 1)
  | 0 => rfl
  | n + 1 => by
    rw [accAdd_succ, accAdd_eq_sumNAcc v n]
    rfl

/-- **C6** (amended): in benchmark mode the value surfaced to the host for
each metric name is the *float64* quotient of the context's float64-
accumulated total by `float64(N)`, reported after the timer stops and
before the resolved Check runs; reporting the same value `v` on each of
`N ≥ 1` invocations accumulates the float64 left-fold `sumNAcc v N`, whose
quotient by `float64(N)` equals `v` exactly only when the float64 additions
and the division round exactly (witnessed at `v = 1.0`, `N = 100`; refuted
in general by the counterexample at `v = 0.1`, `N = 3`). -/
theorem benchmark_metric_surfacing :
    (∀ (σ Inst F I O : Type) (bm : MethodBenchmarkMesa σ Inst F I O) (N : Nat) (o0 : O)
      (bb : MethodBenchmarkCase σ Inst F I O) (s2 : σ),
      bb.Skip = "" → (runBenchCase bm N o0 bb s2).1.outcome = Outcome.passed →
      (runBenchCase bm N o0 bb s2).1.metricsAtReport.isSome = true ∧
      (∀ ms : Metrics, (runBenchCase bm N o0 bb s2).1.metricsAtReport = some ms →
        ∃ pre2 : List Ev,
          (runBenchCase bm N o0 bb s2).1.trace =
            pre2 ++ ms.map (fun p => Ev.reportMetric p.1 (fdiv64 p.2 (natToF64 N))) ++
              ((srcListOf (resolveHook bb.Check bm.Check)).map Ev.check) ++
              [Ev.cleanupRun ((resolveHook bb.Cleanup bm.Cleanup).map Prod.fst)])) ∧
    (∀ (v : F64) (name : String) (n : Nat),
      (runBenchCase (reportingBenchMesa v name) (n + 1) () (unitBenchCase "")
          ()).1.metricsAtReport = some [(name, sumNAcc v (n + 1))] ∧
      (runBenchCase (reportingBenchMesa v name) (n + 1) () (unitBenchCase "")
          ()).1.outcome = Outcome.passed) := by
  constructor
  · intro σ Inst F I O bm N o0 bb s2 hskip hpassed
    obtain ⟨pre, tl, htr, -, -, hfull⟩ := runBenchCase_trace bm N o0 bb s2 hskip
    obtain ⟨ms0, hms0, htl⟩ := hfull hpassed
    subst htl
    refine ⟨by simp [hms0], ?_⟩
    intro ms hms
    rw [hms0] at hms
    injection hms with hms
    subst hms
    refine ⟨pre ++ [Ev.registerCleanup ((resolveHook bb.Cleanup bm.Cleanup).map
      Prod.fst)] ++
      ((srcListOf (resolveHook bb.BeforeCall bm.BeforeCall)).map Ev.beforeCall) ++
      [Ev.resetTimer] ++ List.replicate N Ev.target ++ [Ev.stopTimer], ?_⟩
    rw [htr]
    simp [List.append_assoc]
  · intro v name n
    have hbl := reportingLoop v name (n + 1) ⟨[], ()⟩
    have hmet : reportIter v name (n + 1) ⟨[], ()⟩ = ⟨[(name, sumNAcc v (n + 1))], ()⟩ := by
      show reportIter v name n (reportMetric v name ⟨[], ()⟩) = _
      have h1 : reportMetric v name (⟨[], ()⟩ : BWorld Unit) =
          ⟨[(name, fadd64 0 v)], ()⟩ := by
        simp [reportMetric, addMetric]
      rw [h1, reportIter_single, accAdd_eq_sumNAcc]
    constructor <;>
      · unfold runBenchCase runBenchBody
        simp only [reportingBenchMesa, unitBenchCase, resolveHook, runBefore,
          runCheckHook, finishBenchCase, runCleanupHook]
        simp [hbl, hmet]

set_option maxRecDepth 1000000 in
/-- **C6 counterexample**: reporting `v = 0.1` (bits `0x3FB999999999999A`)
on each of `N = 3` invocations surfaces `0x3FB999999999999B`
(`0.10000000000000002`, one ulp above `v`) — not "exactly `v`": float64
accumulation and division round.  (`0x4...` literals are the IEEE-754
binary64 bit patterns.) -/
theorem benchmark_metric_not_exact_counterexample :
    (runBenchCase (reportingBenchMesa 0x3FB999999999999A "m") 3 () (unitBenchCase "")
        ()).1.trace.count (Ev.reportMetric "m" 0x3FB999999999999B) = 1 ∧
    (runBenchCase (reportingBenchMesa 0x3FB999999999999A "m") 3 () (unitBenchCase "")
        ()).1.trace.count (Ev.reportMetric "m" 0x3FB999999999999A) = 0 ∧
    (0x3FB999999999999B : Nat) ≠ 0x3FB999999999999A := by
  refine ⟨by decide, by decide, by decide⟩

set_option maxRecDepth 1000000 in
/-- Witness for `benchmark_metric_surfacing` at `v = 1.0`
(bits `0x3FF0000000000000`), `N = 100`: the accumulated total and its
quotient are recorded, the run passes, and the surfaced value is exactly
`1.0` (the map sends the accumulated slot through `fdiv64` by
`natToF64 100`, which here evaluates back to `1.0`'s bit pattern). -/
theorem benchmark_metric_surfacing_witness :
    ((runBenchCase (reportingBenchMesa 0x3FF0000000000000 "ops") 100 () (unitBenchCase "")
        ()).1.metricsAtReport = some [("ops", sumNAcc 0x3FF0000000000000 100)] ∧
      (runBenchCase (reportingBenchMesa 0x3FF0000000000000 "ops") 100 () (unitBenchCase "")
        ()).1.outcome = Outcome.passed) ∧
    ((runBenchCase (reportingBenchMesa 0x3FF0000000000000 "ops") 100 () (unitBenchCase "")
        ()).1.metricsAtReport.isSome = true ∧
      (∀ ms : Metrics,
        (runBenchCase (reportingBenchMesa 0x3FF0000000000000 "ops") 100 ()
          (unitBenchCase "") ()).1.metricsAtReport = some ms →
        ∃ pre2 : List Ev,
          (runBenchCase (reportingBenchMesa 0x3FF0000000000000 "ops") 100 ()
              (unitBenchCase "") ()).1.trace =
            pre2 ++ ms.map (fun p => Ev.reportMetric p.1 (fdiv64 p.2 (natToF64 100))) ++
              ((srcListOf (resolveHook (unitBenchCase "").Check
                (reportingBenchMesa 0x3FF0000000000000 "ops").Check)).map Ev.check) ++
              [Ev.cleanupRun ((resolveHook (unitBenchCase "").Cleanup
                (reportingBenchMesa 0x3FF0000000000000 "ops").Cleanup).map Prod.fst)])) :=
  ⟨benchmark_metric_surfacing.2 0x3FF0000000000000 "ops" 99,
    benchmark_metric_surfacing.1 Unit Unit Unit Unit Unit
      (reportingBenchMesa 0x3FF0000000000000 "ops") 100 () (unitBenchCase "") () rfl
      (benchmark_metric_surfacing.2 0x3FF0000000000000 "ops" 99).2⟩

end Mesa
